import Mathlib

/-!
# Review completion condition (`any_of_reviewed_or_lgtmd.js`)

A shallow embedding of the completion condition: the three rules
`all_reviewed_and_resolved`, `reviewable_lgtm`, `github_approved` and the
combinator `any_satisfied`, followed by theorems about them.

Conventions of the embedding.
* The lodash calls are read with the semantics of lodash 3, the version that
  has `_.indexBy`, `_.pluck` and `_.uniq(array, iteratee)`, all used by the file.
* A JavaScript exception (reading a property of `undefined`) is the `error`
  branch of `Except String`.
* Counters and timestamps are natural numbers; a computed count that may go
  below zero is an integer.
* Usernames are opaque strings. A plain object keyed by usernames is kept as
  the list of its own entries; a read `object[username]` that finds no own
  entry sees the member inherited from `Object.prototype`, if the username
  names one (`constructor`, `toString`, `valueOf`, ...).
-/

namespace ReviewCondition

/-! ## Data model: the `review` object -/

/-- A user object of the snapshot, as found in `requestedReviewers`,
`assignees`, `author` and the `reviewers` of a file revision. -/
structure User where
  username : String
  participating : Bool
deriving DecidableEq, Repr

/-- A participant of a discussion. -/
structure Participant where
  username : String
  resolved : Bool
deriving DecidableEq, Repr

/-- A discussion of the review. -/
structure Discussion where
  resolved : Bool
  participants : List Participant
deriving DecidableEq, Repr

/-- A revision of one file, oldest first in `FileEntry.revisions`. -/
structure FileRevision where
  obsolete : Bool
  reviewers : List User
deriving DecidableEq, Repr

/-- A file of the review. -/
structure FileEntry where
  revisions : List FileRevision
deriving DecidableEq, Repr

/-- One sentiment: the emojis a user sent in a comment. -/
structure Sentiment where
  username : String
  emojis : List String
  timestamp : Nat
deriving DecidableEq, Repr

/-- A revision of the review as a whole. -/
structure Revision where
  obsolete : Bool
  snapshotTimestamp : Nat
deriving DecidableEq, Repr

/-- A status check of the pull request. -/
structure Check where
  required : Bool
  success : Bool
deriving DecidableEq, Repr

/-- The precomputed counters `review.summary`. -/
structure Summary where
  numFiles : Nat
  numUnreviewedFiles : Nat
  numUnresolvedDiscussions : Nat
deriving DecidableEq, Repr

/-- The object `review.pullRequest.target`. -/
structure Target where
  branchProtected : Bool
deriving DecidableEq, Repr

/-- The object `review.pullRequest`. The field `approvals` is the plain object
mapping a username to a state string (`approved`, `changes_requested`, ...),
kept as its list of key and value pairs. -/
structure PullRequest where
  requestedReviewers : List User
  assignees : List User
  author : User
  mergeability : String
  checks : List Check
  approvals : List (String × String)
  target : Target
deriving DecidableEq, Repr

/-- The `review` object every rule reads. -/
structure Review where
  summary : Summary
  files : List FileEntry
  discussions : List Discussion
  sentiments : List Sentiment
  revisions : List Revision
  pullRequest : PullRequest
deriving DecidableEq, Repr

/-- An element of a `pendingReviewers` array. The code puts three kinds of
values there: the result of `_.pick(user, 'username')` or of `({username})`,
an object with the single field `username`; a user object taken as it is
(`review.pullRequest.author`, the `requestedReviewers`); and `undefined`. -/
inductive PendingReviewer where
  | undefined : PendingReviewer
  | named (username : String) : PendingReviewer
  | user (u : User) : PendingReviewer
deriving DecidableEq, Repr

/-- The value of `entry.username`, as `_.property('username')` reads it:
`none` stands for `undefined`. -/
def PendingReviewer.username? : PendingReviewer → Option String
  | .undefined => none
  | .named n => some n
  | .user u => some u.username

/-- The object a rule returns. `debug` is present only in the result of
`reviewable_lgtm`, where it is the object with the one field `emojis`,
kept here as the value of that field. -/
structure RuleResult where
  completed : Bool
  description : String
  shortDescription : String
  pendingReviewers : List PendingReviewer
  debug : Option (List String)
deriving DecidableEq, Repr

/-! ## Helpers standing for JavaScript and lodash primitives -/

/-- The number of approvals/LGTMs required to merge if there are no PR assignees. -/
def DEFAULT_NUM_APPROVALS_REQUIRED : Nat := 1

/-- String form of a number in a concatenation or a template string. -/
def numStr (n : Int) : String := toString n

/-- The suffix `(n > 1 ? 's' : '')`. -/
def plural (n : Nat) : String := if n > 1 then "s" else ""

/-- The call `_.uniq(array, iteratee)`: the first element of every class of
equal iteratee values is kept, in order. -/
def uniqBy {α β : Type} [DecidableEq β] (key : α → β) : List α → List α
  | [] => []
  | x :: xs => x :: (uniqBy key xs).filter (fun y => decide (key y ≠ key x))

/-- The call `_.pick(user, 'username')` on a user object. -/
def pickUsername (u : User) : PendingReviewer := .named u.username

/-- The call `_.findLast(array, predicate)`. -/
def findLast {α : Type} (xs : List α) (p : α → Bool) : Option α :=
  xs.reverse.find? p

/-- The expression `_.isEmpty(a) ? b : a` for the designated reviewers. -/
def designatedReviewers (review : Review) : List User :=
  if review.pullRequest.requestedReviewers.isEmpty then
    review.pullRequest.assignees
  else
    review.pullRequest.requestedReviewers

/-- The call `_.flatten(arrays)` on an array of arrays. -/
def flatten {α : Type} (xss : List (List α)) : List α :=
  xss.foldr (fun xs acc => xs ++ acc) []

/-- The chain computing `discussionBlockers`: the unresolved participants of
the unresolved discussions, each picked down to its username. -/
def discussionBlockers (review : Review) : List PendingReviewer :=
  ((flatten ((review.discussions.filter (fun d => d.resolved == false)).map
      (fun d => d.participants))).filter
        (fun p => p.resolved == false)).map (fun p => PendingReviewer.named p.username)

/-! ## Rule 1: all files reviewed and all discussions resolved -/

/-- The revision the filter callback looks at: the last non-obsolete revision
of the file, or the last revision when there is none; `none` is `undefined`
(the file has no revision at all). -/
def effectiveLastRevision (file : FileEntry) : Option FileRevision :=
  match (file.revisions.filter (fun rev => !rev.obsolete)).getLast? with
  | some rev => some rev
  | none => file.revisions.getLast?

/-- The filter `_(review.files).filter(file => ... _.isEmpty(rev.reviewers))`:
the files whose effective last revision has no reviewers. Reading
`rev.reviewers` throws when `rev` is `undefined`. -/
def unreviewedFiles : List FileEntry → Except String (List FileEntry)
  | [] => .ok []
  | file :: files =>
    match effectiveLastRevision file with
    | none => .error "TypeError: cannot read property reviewers of undefined"
    | some rev =>
      match unreviewedFiles files with
      | .error e => .error e
      | .ok rest => .ok (if rev.reviewers.isEmpty then file :: rest else rest)

/-- The array `lastReviewedRevisionsOfUnreviewedFiles`: for every unreviewed
file the last of all its revisions that has a reviewer, or `undefined`. -/
def lastReviewedRevisionsOfUnreviewedFiles (review : Review) :
    Except String (List (Option FileRevision)) :=
  match unreviewedFiles review.files with
  | .error e => .error e
  | .ok files =>
    .ok (files.map (fun file => findLast file.revisions (fun rev => !rev.reviewers.isEmpty)))

/-- The array `fileBlockers`: compact, map to `reviewers`, flatten. -/
def fileBlockers (lastReviewed : List (Option FileRevision)) : List User :=
  flatten ((lastReviewed.filterMap id).map (fun rev => rev.reviewers))

/-- The array `missingReviewers`. -/
def missingReviewers (review : Review) (lastReviewed : List (Option FileRevision)) :
    List User :=
  if lastReviewed.any (fun rev => rev.isNone) then
    designatedReviewers review
  else
    (designatedReviewers review).filter (fun u => u.participating == false)

/-- The array `pendingReviewers` before the mergeability test: the three
groups concatenated, picked down to the username and made unique by it.
The discussion blockers are picked already and picking is idempotent. -/
def blockers (review : Review) (lastReviewed : List (Option FileRevision)) :
    List PendingReviewer :=
  uniqBy PendingReviewer.username?
    ((fileBlockers lastReviewed).map pickUsername ++ discussionBlockers review ++
      (missingReviewers review lastReviewed).map pickUsername)

/-- The constant `completed` of the first rule. -/
def summaryCompleted (summary : Summary) : Bool :=
  summary.numUnreviewedFiles == 0 && summary.numUnresolvedDiscussions == 0

/-- The constant `readyToMerge`. -/
def readyToMerge (review : Review) : Bool :=
  if review.pullRequest.target.branchProtected then
    decide (review.pullRequest.mergeability ∈ ["has_hooks", "clean", "unstable"])
  else
    summaryCompleted review.summary && decide (review.pullRequest.mergeability ≠ "draft") &&
      review.pullRequest.checks.all (fun check => !check.required || check.success)

/-- The array `reasons` of the first rule. -/
def reasons (summary : Summary) : List String :=
  [ if summary.numUnreviewedFiles ≠ 0 then
      numStr ((summary.numFiles : Int) - (summary.numUnreviewedFiles : Int)) ++ " of " ++
        numStr summary.numFiles ++ " files reviewed"
    else "all files reviewed",
    if summary.numUnresolvedDiscussions ≠ 0 then
      numStr summary.numUnresolvedDiscussions ++ " unresolved discussion" ++
        plural summary.numUnresolvedDiscussions
    else "all discussions resolved" ]

/-- The array `shortReasons` of the first rule. -/
def shortReasons (summary : Summary) : List String :=
  (if summary.numUnreviewedFiles ≠ 0 then
      [numStr summary.numUnreviewedFiles ++ " file" ++ plural summary.numUnreviewedFiles]
    else []) ++
  (if summary.numUnresolvedDiscussions ≠ 0 then
      [numStr summary.numUnresolvedDiscussions ++ " discussion" ++
        plural summary.numUnresolvedDiscussions]
    else [])

/-- Rule 1, `all_reviewed_and_resolved(review)`. -/
def all_reviewed_and_resolved (review : Review) : Except String RuleResult :=
  match lastReviewedRevisionsOfUnreviewedFiles review with
  | .error e => .error e
  | .ok lastReviewed =>
    let completed := summaryCompleted review.summary
    let pending := blockers review lastReviewed
    let pendingReviewers :=
      if pending.isEmpty then
        (if readyToMerge review then pending ++ [PendingReviewer.user review.pullRequest.author]
         else pending)
      else pending
    let shortDescription :=
      if completed then
        numStr review.summary.numFiles ++ " file" ++ plural review.summary.numFiles ++ " reviewed"
      else String.intercalate ", " (shortReasons review.summary) ++ " left"
    .ok { completed := completed
          description := String.intercalate ", " (reasons review.summary)
          shortDescription := shortDescription
          pendingReviewers := pendingReviewers
          debug := none }

/-! ## Rule 2: LGTM emojis -/

/-- The object `approvals` of `reviewable_lgtm`: username to `true` (current
LGTM) or `false` (stale LGTM), no entry when not given or canceled. It is kept
as a list of pairs with at most one pair per username. The object is only
read through lookups and counts, so the order of the pairs plays no role. -/
abbrev Approvals := List (String × Bool)

/-- The own entry of `approvals` under `username`; `none` when the object has
no own property of that name. -/
def Approvals.get (approvals : Approvals) (username : String) : Option Bool :=
  (approvals.find? (fun entry => decide (entry.1 = username))).map (fun entry => entry.2)

/-- Names of the members every plain object inherits from `Object.prototype`.
Each is a function, and `__proto__` is the prototype object: all are truthy. -/
def inheritedObjectKeys : List String :=
  ["constructor", "hasOwnProperty", "isPrototypeOf", "propertyIsEnumerable",
   "toLocaleString", "toString", "valueOf", "__defineGetter__", "__defineSetter__",
   "__lookupGetter__", "__lookupSetter__", "__proto__"]

/-- Truthiness of the read `approvals[username]` on the plain object
`approvals`: the value of the own entry when there is one, else the inherited
member when `username` names one, else `undefined`. -/
def Approvals.truthy (approvals : Approvals) (username : String) : Bool :=
  match approvals.get username with
  | some value => value
  | none => decide (username ∈ inheritedObjectKeys)

/-- The statement `delete approvals[username]`. -/
def Approvals.delete (approvals : Approvals) (username : String) : Approvals :=
  approvals.filter (fun entry => decide (entry.1 ≠ username))

/-- The assignment `approvals[username] = value`, which creates or replaces
the own entry. (Under the one key `__proto__` an assignment is taken by the
inherited setter and creates no entry; that key holds underscores, which no
username of the platform does, and is not treated apart here.) -/
def Approvals.set (approvals : Approvals) (username : String) (value : Bool) : Approvals :=
  (username, value) :: approvals.delete username

/-- The body of the `_.forEach(review.sentiments, ...)` callback, for one
sentiment. `emojis.name` is truthy exactly when `name` is among
`sentiment.emojis`, and `!approvals[username]` holds when the read of
`approvals[username]` is falsy. -/
def applySentiment (lastRevisionTimestamp : Nat) (approvals : Approvals)
    (sentiment : Sentiment) : Approvals :=
  if "lgtm_cancel" ∈ sentiment.emojis then
    approvals.delete sentiment.username
  else if "lgtm_strong" ∈ sentiment.emojis then
    approvals.set sentiment.username true
  else if "lgtm" ∈ sentiment.emojis ∧ approvals.truthy sentiment.username = false then
    approvals.set sentiment.username (decide (sentiment.timestamp ≥ lastRevisionTimestamp))
  else
    approvals

/-- The object `approvals` after the whole `_.forEach` over the sentiments. -/
def processSentiments (lastRevisionTimestamp : Nat) (sentiments : List Sentiment) :
    Approvals :=
  sentiments.foldl (applySentiment lastRevisionTimestamp) []

/-- The constant `lastRevisionTimestamp`: the `snapshotTimestamp` of the last
non-obsolete revision; reading it throws when there is no such revision. -/
def lastRevisionTimestamp (review : Review) : Except String Nat :=
  match (review.revisions.filter (fun rev => !rev.obsolete)).getLast? with
  | some rev => .ok rev.snapshotTimestamp
  | none => .error "TypeError: cannot read property snapshotTimestamp of undefined"

/-- The count `_.countBy(object)[value]` of the entries with the given value
(`0` where the code reads `undefined`, in `|| 0` or in a truth test). -/
def countValue (approvals : Approvals) (value : Bool) : Nat :=
  approvals.countP (fun entry => entry.2 == value)

/-- The call `_.pick(approvals, required)`: the own entries whose key is listed.
(An inherited member that `key in object` lets through as well is a function:
it is neither `true` nor `false` nor a state string and has no property
`approved`, so it enters none of the counts taken of the picked object.) -/
def pickKeys {β : Type} (object : List (String × β)) (keys : List String) :
    List (String × β) :=
  object.filter (fun entry => decide (entry.1 ∈ keys))

/-- The array `required` of `reviewable_lgtm`. -/
def requiredLgtm (review : Review) : List String :=
  (designatedReviewers review).map (fun u => u.username)

/-- The variable `numApprovalsRequired` of `reviewable_lgtm` at the end of the
function; `none` is `undefined`, the value it keeps when `required` is empty. -/
def lgtmNumApprovalsRequired (required : List String) : Option Nat :=
  if required.length ≠ 0 then some (max required.length DEFAULT_NUM_APPROVALS_REQUIRED)
  else none

/-- The variable `numGranted` of `reviewable_lgtm` at the end of the function. -/
def lgtmNumGranted (approvals : Approvals) (required : List String) : Int :=
  if required.length ≠ 0 then
    (countValue (pickKeys approvals required) true : Int) +
      min (countValue approvals true : Int)
        ((DEFAULT_NUM_APPROVALS_REQUIRED : Int) - (required.length : Int))
  else
    (countValue approvals true : Int)

/-- The variable `pendingReviewers` of `reviewable_lgtm` at the end of the function. -/
def lgtmPendingReviewers (approvals : Approvals) (required : List String) :
    List PendingReviewer :=
  if required.length ≠ 0 then
    (required.filter (fun username => !approvals.truthy username)).map
      (fun username => PendingReviewer.named username)
  else []

/-- String form of `numApprovalsRequired` in a concatenation. -/
def optNumStr : Option Nat → String
  | some n => numStr n
  | none => "undefined"

/-- Rule 2, `reviewable_lgtm()`, reading the enclosing `review`. The call
`debug['emojis'].push.apply(emojis)` adds nothing to the array, so the
`debug` object returned is the one with an empty `emojis` array. -/
def reviewable_lgtm (review : Review) : Except String RuleResult :=
  match lastRevisionTimestamp review with
  | .error e => .error e
  | .ok last =>
    let approvals := processSentiments last review.sentiments
    let required := requiredLgtm review
    let numGranted := lgtmNumGranted approvals required
    let numApprovalsRequired := lgtmNumApprovalsRequired required
    let numFalse := countValue approvals false
    let description :=
      numStr numGranted ++ " of " ++ optNumStr numApprovalsRequired ++ " LGTMs obtained"
    let shortDescription :=
      numStr numGranted ++ "/" ++ optNumStr numApprovalsRequired ++ " LGTMs"
    .ok { completed := decide (numGranted ≥ (DEFAULT_NUM_APPROVALS_REQUIRED : Int))
          description :=
            if numFalse ≠ 0 then description ++ ", and " ++ numStr numFalse ++ " stale"
            else description
          shortDescription :=
            if numFalse ≠ 0 then shortDescription ++ ", " ++ numStr numFalse ++ " stale"
            else shortDescription
          pendingReviewers := lgtmPendingReviewers approvals required
          debug := some [] }

/-! ## Rule 3: GitHub review approvals -/

/-- Names of the members a string inherits from `String.prototype` and
`Object.prototype`; each is a function (or the prototype object), hence truthy. -/
def inheritedStringKeys : List String :=
  ["constructor", "toString", "valueOf", "toLocaleString", "hasOwnProperty",
   "isPrototypeOf", "propertyIsEnumerable", "__proto__", "__defineGetter__",
   "__defineSetter__", "__lookupGetter__", "__lookupSetter__",
   "anchor", "at", "big", "blink", "bold", "charAt", "charCodeAt", "codePointAt",
   "concat", "endsWith", "fixed", "fontcolor", "fontsize", "includes", "indexOf",
   "italics", "lastIndexOf", "link", "localeCompare", "match", "matchAll", "normalize",
   "padEnd", "padStart", "repeat", "replace", "replaceAll", "search", "slice", "small",
   "split", "startsWith", "strike", "sub", "substr", "substring", "sup",
   "toLocaleLowerCase", "toLocaleUpperCase", "toLowerCase", "toUpperCase", "trim",
   "trimEnd", "trimLeft", "trimRight", "trimStart"]

/-- Whether a property key is the canonical decimal form of an array index. -/
def isArrayIndex (key : String) : Bool :=
  !key.data.isEmpty && key.data.all Char.isDigit &&
    (key.data.head? != some '0' || key.data.length == 1)

/-- The number a decimal key denotes. -/
def indexValue (key : String) : Nat :=
  key.data.foldl (fun n c => 10 * n + (c.toNat - 48)) 0

/-- Truthiness of `value[key]` for a string `value`, which is what the
property shorthand `_.filter(collection, key)` tests on each value of the
`approvals` object (`_.filter(users, 'active')` keeps the users whose `active`
property is truthy). A string has the property `length`, one property per
index, holding a one-character string, and the inherited members; under any
other key, such as `approved` or `changes_requested`, the lookup gives
`undefined`, which is falsy. -/
def stringPropertyTruthy (value : String) (key : String) : Bool :=
  if key = "length" then decide (value.length ≠ 0)
  else if isArrayIndex key then decide (indexValue key < value.length)
  else decide (key ∈ inheritedStringKeys)

/-- The call `_.filter(object, key)` with the property shorthand, on an object
whose values are strings. -/
def filterByProperty (object : List (String × String)) (key : String) :
    List (String × String) :=
  object.filter (fun entry => stringPropertyTruthy entry.2 key)

/-- The own entry of the pull request approvals under `username`. An
inherited member read in its place is not the string `approved`. -/
def approvalState (approvals : List (String × String)) (username : String) : Option String :=
  (approvals.find? (fun entry => decide (entry.1 = username))).map (fun entry => entry.2)

/-- Truthiness of the read `approvals[username]` in the pull request
approvals: a non-empty state string, or an inherited member. -/
def approvalStateTruthy (approvals : List (String × String)) (username : String) : Bool :=
  match approvalState approvals username with
  | some state => decide (state ≠ "")
  | none => decide (username ∈ inheritedObjectKeys)

/-- The array `required` of `github_approved`: the usernames of the assignees
after `_.pull(required, author.username)`. -/
def requiredGithub (review : Review) : List String :=
  (review.pullRequest.assignees.map (fun u => u.username)).filter
    (fun username => decide (username ≠ review.pullRequest.author.username))

/-- The first value of `pendingReviewers` in `github_approved`: the discussion
blockers followed by the requested reviewers. -/
def githubBaseline (review : Review) : List PendingReviewer :=
  discussionBlockers review ++
    review.pullRequest.requestedReviewers.map (fun u => PendingReviewer.user u)

/-- The variable `numApprovalsRequired` of `github_approved` at the end. -/
def githubNumApprovalsRequired (review : Review) : Nat :=
  if (requiredGithub review).length ≠ 0 then
    max (requiredGithub review).length DEFAULT_NUM_APPROVALS_REQUIRED
  else DEFAULT_NUM_APPROVALS_REQUIRED

/-- The variable `numApprovals` of `github_approved` at the end. -/
def githubNumApprovals (review : Review) : Int :=
  let approvals := review.pullRequest.approvals
  let numApprovals : Int := ((filterByProperty approvals "approved").length : Int)
  let required := requiredGithub review
  if required.length ≠ 0 then
    ((filterByProperty (pickKeys approvals required) "approved").length : Int) +
      min numApprovals ((githubNumApprovalsRequired review : Int) - (required.length : Int))
  else numApprovals

/-- The variable `pendingReviewers` of `github_approved` before `_.uniq`. The
arrow function `username => {username}` has a block body and returns
`undefined`. -/
def githubPendingReviewers (review : Review) : List PendingReviewer :=
  let approvals := review.pullRequest.approvals
  let baseline := githubBaseline review
  let required := requiredGithub review
  if required.length ≠ 0 then
    (((required.filter (fun username => decide (approvalState approvals username ≠ some "approved"))).filter
        (fun username => !(decide (baseline.length ≠ 0) &&
          approvalStateTruthy approvals username))).map
            (fun _ => PendingReviewer.undefined)) ++ baseline
  else baseline

/-- Rule 3, `github_approved()`, reading the enclosing `review`. -/
def github_approved (review : Review) : Except String RuleResult :=
  let numRejections := (filterByProperty review.pullRequest.approvals "changes_requested").length
  let numApprovals := githubNumApprovals review
  let numApprovalsRequired := githubNumApprovalsRequired review
  .ok { completed := decide (numApprovals ≥ (numApprovalsRequired : Int))
        description :=
          (if numRejections ≠ 0 then numStr numRejections ++ " change requests, " else "") ++
            numStr numApprovals ++ " of " ++ numStr numApprovalsRequired ++ " approvals obtained"
        shortDescription :=
          (if numRejections ≠ 0 then numStr numRejections ++ " ✗, " else "") ++
            numStr numApprovals ++ " of " ++ numStr numApprovalsRequired ++ " ✓"
        pendingReviewers := uniqBy PendingReviewer.username? (githubPendingReviewers review)
        debug := none }

/-! ## The combinator -/

/-- A rule: a function from the review to a result, which may throw. -/
abbrev Rule := Review → Except String RuleResult

/-- The call `_.map(conditions, fn => fn(review))`: every rule is run, in
order, and the first exception ends the evaluation. -/
def runConditions (review : Review) : List Rule → Except String (List RuleResult)
  | [] => .ok []
  | fn :: conditions =>
    match fn review with
    | .error e => .error e
    | .ok res =>
      match runConditions review conditions with
      | .error e => .error e
      | .ok results => .ok (res :: results)

/-- The combinator `any_satisfied(conditions, review)`. In the fallback object
`results.pendingReviewers` is a property read on the array `results`, which is
`undefined`; `[].concat(undefined)` is the array holding `undefined`, and
`_.uniq` leaves it as it is. The fallback object has no `debug` field. -/
def any_satisfied (conditions : List Rule) (review : Review) : Except String RuleResult :=
  match runConditions review conditions with
  | .error e => .error e
  | .ok results =>
    match results.find? (fun res => res.completed) with
    | some satisfied => .ok satisfied
    | none =>
      .ok { completed := false
            description := String.intercalate " / " (results.map (fun res => res.description))
            shortDescription :=
              String.intercalate " / " (results.map (fun res => res.shortDescription))
            pendingReviewers := uniqBy id ([] ++ [PendingReviewer.undefined])
            debug := none }

/-- The last statement of the file: the condition applied to the review. -/
def condition (review : Review) : Except String RuleResult :=
  any_satisfied [all_reviewed_and_resolved, reviewable_lgtm, github_approved] review

/-! ## The LGTM condition of `default-2021-01-05.js` -/

/-- The object the LGTM condition of `default-2021-01-05.js` returns; its
`debug` field is the `approvals` object. -/
structure DefaultLgtmResult where
  completed : Bool
  description : String
  shortDescription : String
  pendingReviewers : List PendingReviewer
  debug : Approvals
deriving DecidableEq, Repr

/-- The variable `numApprovalsRequired` of the default LGTM condition at the
end: it starts at `1` and becomes `_.max([required.length, 1])` when
`required` is not empty. -/
def defaultNumApprovalsRequired (required : List String) : Nat :=
  if required.length ≠ 0 then max required.length 1 else 1

/-- The variable `numGranted` of the default LGTM condition at the end. -/
def defaultNumGranted (approvals : Approvals) (required : List String) : Int :=
  if required.length ≠ 0 then
    (countValue (pickKeys approvals required) true : Int) +
      min (countValue approvals true : Int)
        ((defaultNumApprovalsRequired required : Int) - (required.length : Int))
  else
    (countValue approvals true : Int)

/-- The LGTM condition in the second part of `default-2021-01-05.js`. The
`_.forEach` callback (with `_.keyBy`, the later name of `_.indexBy` with the
identity), the array `required` and the chain for `pendingReviewers` have the
same text as in `reviewable_lgtm`. -/
def default_lgtm_condition (review : Review) : Except String DefaultLgtmResult :=
  match lastRevisionTimestamp review with
  | .error e => .error e
  | .ok last =>
    let approvals := processSentiments last review.sentiments
    let required := requiredLgtm review
    let numGranted := defaultNumGranted approvals required
    let numApprovalsRequired := defaultNumApprovalsRequired required
    let numFalse := countValue approvals false
    let description :=
      numStr numGranted ++ " of " ++ numStr numApprovalsRequired ++ " LGTMs obtained"
    let shortDescription :=
      numStr numGranted ++ "/" ++ numStr numApprovalsRequired ++ " LGTMs"
    .ok { completed := decide (numGranted ≥ (numApprovalsRequired : Int))
          description :=
            if numFalse ≠ 0 then description ++ ", and " ++ numStr numFalse ++ " stale"
            else description
          shortDescription :=
            if numFalse ≠ 0 then shortDescription ++ ", " ++ numStr numFalse ++ " stale"
            else shortDescription
          pendingReviewers := lgtmPendingReviewers approvals required
          debug := approvals }

/-! ## Example snapshots -/

/-- A pull request by carol with nothing requested, clean and unprotected. -/
def plainPullRequest : PullRequest :=
  { requestedReviewers := [], assignees := [], author := ⟨"carol", true⟩,
    mergeability := "clean", checks := [], approvals := [], target := ⟨false⟩ }

/-- Three files, all reviewed, no discussion; alice sent a strong LGTM. -/
def bothCompletedReview : Review :=
  { summary := ⟨3, 0, 0⟩, files := [], discussions := [],
    sentiments := [⟨"alice", ["lgtm_strong"], 5⟩], revisions := [⟨false, 3⟩],
    pullRequest := plainPullRequest }

/-- One of three files unreviewed, one unresolved discussion in which dave is
unresolved, bob assigned and not participating, no LGTM and no approval. -/
def noneCompletedReview : Review :=
  { summary := ⟨3, 1, 1⟩, files := [],
    discussions := [⟨false, [⟨"dave", false⟩, ⟨"erin", true⟩]⟩],
    sentiments := [], revisions := [⟨false, 3⟩],
    pullRequest := { plainPullRequest with assignees := [⟨"bob", false⟩] } }

/-- Three files, all reviewed, no discussion, mergeability clean, no check. -/
def readyReview : Review :=
  { summary := ⟨3, 0, 0⟩, files := [], discussions := [], sentiments := [],
    revisions := [⟨false, 3⟩], pullRequest := plainPullRequest }

/-- The snapshot `readyReview` with one required check that has not succeeded. -/
def failingCheckReview : Review :=
  { readyReview with pullRequest := { plainPullRequest with checks := [⟨true, false⟩] } }

/-- One file, reviewed by alice in its only revision, no discussion; bob is a
requested reviewer who has not taken part in the review. -/
def requestedBobReview : Review :=
  { summary := ⟨1, 0, 0⟩, files := [⟨[⟨false, [⟨"alice", true⟩]⟩]⟩], discussions := [],
    sentiments := [], revisions := [⟨false, 3⟩],
    pullRequest := { plainPullRequest with requestedReviewers := [⟨"bob", false⟩] } }

/-- One file whose only revision has no reviewer; bob is assigned and taking part. -/
def neverReviewedReview : Review :=
  { summary := ⟨1, 1, 0⟩, files := [⟨[⟨false, []⟩]⟩], discussions := [],
    sentiments := [], revisions := [⟨false, 3⟩],
    pullRequest := { plainPullRequest with assignees := [⟨"bob", true⟩] } }

/-- Alice is the requested reviewer; she sent a strong LGTM and then a
sentiment carrying both `lgtm_cancel` and `lgtm_strong`; bob sent a LGTM later. -/
def canceledReview : Review :=
  { summary := ⟨1, 1, 0⟩, files := [], discussions := [],
    sentiments := [⟨"alice", ["lgtm_strong"], 5⟩, ⟨"alice", ["lgtm_strong", "lgtm_cancel"], 6⟩,
      ⟨"bob", ["lgtm"], 7⟩],
    revisions := [⟨false, 3⟩],
    pullRequest := { plainPullRequest with requestedReviewers := [⟨"alice", true⟩] } }

/-- Alice sent a LGTM at time 1, before the latest revision (time 3), and a
second LGTM at time 5, after it. -/
def renewedLgtmReview : Review :=
  { summary := ⟨1, 1, 0⟩, files := [], discussions := [],
    sentiments := [⟨"alice", ["lgtm"], 1⟩, ⟨"alice", ["lgtm"], 5⟩],
    revisions := [⟨false, 0⟩, ⟨false, 3⟩],
    pullRequest := plainPullRequest }

/-- Alice sent a strong LGTM at time 1 and a plain LGTM at time 2, both before
the latest revision (time 3). -/
def strongThenPlainReview : Review :=
  { summary := ⟨1, 1, 0⟩, files := [], discussions := [],
    sentiments := [⟨"alice", ["lgtm_strong"], 1⟩, ⟨"alice", ["lgtm"], 2⟩],
    revisions := [⟨false, 0⟩, ⟨false, 3⟩],
    pullRequest := plainPullRequest }

/-- Alice and bob are requested; alice and the outsider zed sent a strong LGTM. -/
def outsiderLgtmReview : Review :=
  { summary := ⟨1, 1, 0⟩, files := [], discussions := [],
    sentiments := [⟨"alice", ["lgtm_strong"], 5⟩, ⟨"zed", ["lgtm_strong"], 6⟩],
    revisions := [⟨false, 3⟩],
    pullRequest :=
      { plainPullRequest with requestedReviewers := [⟨"alice", true⟩, ⟨"bob", true⟩] } }

/-- Nobody requested or assigned; alice sent a strong LGTM, bob a plain LGTM
stamped before the latest revision. -/
def noDesignatedReview : Review :=
  { summary := ⟨1, 1, 0⟩, files := [], discussions := [],
    sentiments := [⟨"alice", ["lgtm_strong"], 1⟩, ⟨"bob", ["lgtm"], 2⟩],
    revisions := [⟨false, 3⟩],
    pullRequest := plainPullRequest }

/-- Alice, bob and dan are requested and nobody sent a sentiment. -/
def threeRequestedReview : Review :=
  { summary := ⟨1, 1, 0⟩, files := [], discussions := [], sentiments := [],
    revisions := [⟨false, 3⟩],
    pullRequest :=
      { plainPullRequest with
        requestedReviewers := [⟨"alice", true⟩, ⟨"bob", true⟩, ⟨"dan", true⟩] } }

/-- The snapshot of the fifth scenario: bob is assigned, carol is the author
and bob has approved on the platform. -/
def bobApprovedReview : Review :=
  { summary := ⟨1, 1, 0⟩, files := [], discussions := [], sentiments := [],
    revisions := [⟨false, 3⟩],
    pullRequest :=
      { plainPullRequest with
        assignees := [⟨"bob", true⟩], approvals := [("bob", "approved")] } }

/-- Nobody assigned; alice and bob approved and dave requested changes. -/
def changesRequestedReview : Review :=
  { summary := ⟨1, 1, 0⟩, files := [], discussions := [], sentiments := [],
    revisions := [⟨false, 3⟩],
    pullRequest :=
      { plainPullRequest with
        approvals := [("alice", "approved"), ("bob", "approved"),
          ("dave", "changes_requested")] } }

/-- Bob and erin are assigned and have no platform state, zed is a requested
reviewer, dave is unresolved in an unresolved discussion. -/
def unapprovedAssigneesReview : Review :=
  { summary := ⟨1, 1, 1⟩, files := [],
    discussions := [⟨false, [⟨"dave", false⟩]⟩], sentiments := [],
    revisions := [⟨false, 3⟩],
    pullRequest :=
      { plainPullRequest with
        assignees := [⟨"bob", true⟩, ⟨"erin", true⟩],
        requestedReviewers := [⟨"zed", true⟩] } }

/-- Alice and bob are requested, bob is assigned; alice and three outsiders
sent a strong LGTM and the three outsiders approved on the platform. -/
def manyOutsidersReview : Review :=
  { summary := ⟨1, 1, 0⟩, files := [], discussions := [],
    sentiments := [⟨"alice", ["lgtm_strong"], 5⟩, ⟨"xena", ["lgtm_strong"], 6⟩,
      ⟨"yuri", ["lgtm_strong"], 7⟩, ⟨"zed", ["lgtm_strong"], 8⟩],
    revisions := [⟨false, 3⟩],
    pullRequest :=
      { plainPullRequest with
        requestedReviewers := [⟨"alice", true⟩, ⟨"bob", true⟩],
        assignees := [⟨"bob", true⟩],
        approvals := [("xena", "approved"), ("yuri", "approved"), ("zed", "approved")] } }

/-- The snapshot `readyReview` with no review revision at all. -/
def noRevisionsReview : Review :=
  { readyReview with revisions := [] }

/-- The snapshot `readyReview` whose review revisions are all obsolete. -/
def onlyObsoleteRevisionsReview : Review :=
  { readyReview with revisions := [⟨true, 1⟩, ⟨true, 3⟩] }

/-- One file with two revisions: the first is not obsolete and has no
reviewer, the second, later one is obsolete and was reviewed by dave. -/
def laterObsoleteReview : Review :=
  { summary := ⟨1, 1, 0⟩,
    files := [⟨[⟨false, []⟩, ⟨true, [⟨"dave", true⟩]⟩]⟩],
    discussions := [], sentiments := [], revisions := [⟨false, 3⟩],
    pullRequest := plainPullRequest }

/-- One file with three revisions: reviewed by alice, then not obsolete and
without reviewer, then obsolete and without reviewer. -/
def earlierReviewedReview : Review :=
  { summary := ⟨1, 1, 0⟩,
    files := [⟨[⟨true, [⟨"alice", true⟩]⟩, ⟨false, []⟩, ⟨true, []⟩]⟩],
    discussions := [], sentiments := [], revisions := [⟨false, 3⟩],
    pullRequest := plainPullRequest }

/-- The requested reviewer is named `constructor`; nobody sent a sentiment. -/
def inheritedNameReview : Review :=
  { summary := ⟨1, 1, 0⟩, files := [], discussions := [], sentiments := [],
    revisions := [⟨false, 3⟩],
    pullRequest :=
      { plainPullRequest with requestedReviewers := [⟨"constructor", true⟩] } }

/-- The requested reviewer named `constructor` sent a strong LGTM and then
canceled it. -/
def canceledInheritedNameReview : Review :=
  { summary := ⟨1, 1, 0⟩, files := [], discussions := [],
    sentiments :=
      [⟨"constructor", ["lgtm_strong"], 5⟩, ⟨"constructor", ["lgtm_cancel"], 6⟩],
    revisions := [⟨false, 3⟩],
    pullRequest :=
      { plainPullRequest with requestedReviewers := [⟨"constructor", true⟩] } }

/-! ## Lemmas on the helpers -/


theorem mem_flatten {α : Type} (xss : List (List α)) (x : α) :
    x ∈ flatten xss ↔ ∃ xs ∈ xss, x ∈ xs := by
  induction xss with
  | nil => simp [flatten]
  | cons ys yss ih =>
    have h : flatten (ys :: yss) = ys ++ flatten yss := rfl
    rw [h, List.mem_append, ih]
    simp

theorem flatten_eq_nil {α : Type} (xss : List (List α)) :
    flatten xss = [] ↔ ∀ xs ∈ xss, xs = [] := by
  induction xss with
  | nil => simp [flatten]
  | cons ys yss ih =>
    have h : flatten (ys :: yss) = ys ++ flatten yss := rfl
    rw [h, List.append_eq_nil, ih]
    simp

theorem mem_uniqBy {α β : Type} [DecidableEq β] (key : α → β) (xs : List α) (y : α) :
    y ∈ uniqBy key xs → y ∈ xs := by
  induction xs with
  | nil => simp [uniqBy]
  | cons x xs ih =>
    intro h
    simp only [uniqBy, List.mem_cons, List.mem_filter] at h
    rcases h with h | ⟨h, _⟩
    · exact h ▸ List.mem_cons_self _ _
    · exact List.mem_cons_of_mem _ (ih h)

theorem key_mem_uniqBy {α β : Type} [DecidableEq β] (key : α → β) (xs : List α) (x : α)
    (hx : x ∈ xs) : ∃ y ∈ uniqBy key xs, key y = key x := by
  induction xs with
  | nil => simp at hx
  | cons z zs ih =>
    rcases List.mem_cons.mp hx with h | h
    · exact ⟨z, by simp [uniqBy], by rw [h]⟩
    · obtain ⟨y, hy, hk⟩ := ih h
      by_cases hz : key y = key z
      · exact ⟨z, by simp [uniqBy], by rw [← hz, hk]⟩
      · exact ⟨y, by simp [uniqBy, hy, hz], hk⟩

theorem uniqBy_eq_nil {α β : Type} [DecidableEq β] (key : α → β) (xs : List α) :
    uniqBy key xs = [] ↔ xs = [] := by
  cases xs <;> simp [uniqBy]

theorem runConditions_first (review : Review) (fn : Rule) (res : RuleResult)
    (postC : List Rule) (hfn : fn review = .ok res) (hres : res.completed = true)
    (hpost : ∀ f ∈ postC, ∃ r, f review = .ok r) :
    ∀ preC : List Rule, (∀ f ∈ preC, ∃ r, f review = .ok r ∧ r.completed = false) →
      ∃ results, runConditions review (preC ++ fn :: postC) = .ok results ∧
        results.find? (fun r => r.completed) = some res := by
  have hrun : ∀ cs : List Rule, (∀ f ∈ cs, ∃ r, f review = .ok r) →
      ∃ results, runConditions review cs = .ok results := by
    intro cs
    induction cs with
    | nil => intro _; exact ⟨[], rfl⟩
    | cons f cs ih =>
      intro h
      obtain ⟨r, hr⟩ := h f (List.mem_cons_self _ _)
      obtain ⟨rs, hrs⟩ := ih (fun g hg => h g (List.mem_cons_of_mem _ hg))
      exact ⟨r :: rs, by simp [runConditions, hr, hrs]⟩
  intro preC
  induction preC with
  | nil =>
    intro _
    obtain ⟨rs, hrs⟩ := hrun postC hpost
    exact ⟨res :: rs, by simp [runConditions, hfn, hrs], by simp [List.find?, hres]⟩
  | cons f preC ih =>
    intro h
    obtain ⟨r, hr, hc⟩ := h f (List.mem_cons_self _ _)
    obtain ⟨rs, hrs, hfind⟩ := ih (fun g hg => h g (List.mem_cons_of_mem _ hg))
    exact ⟨r :: rs, by simp [runConditions, hr, hrs], by simp [List.find?, hc, hfind]⟩

/-! ## The combinator: priority and fallback -/

/-- C1. When every rule of the list returns and some result is completed,
`any_satisfied` returns the result of the first rule, in list order, whose
result is completed, unchanged. In particular the condition of the file
returns the result of `all_reviewed_and_resolved` whenever that one is
completed, whatever the two later rules return. -/
theorem any_satisfied_first_completed :
    (∀ (review : Review) (preC : List Rule) (fn : Rule) (postC : List Rule) (res : RuleResult),
      (∀ f ∈ preC, ∃ r, f review = .ok r ∧ r.completed = false) →
      fn review = .ok res → res.completed = true →
      (∀ f ∈ postC, ∃ r, f review = .ok r) →
      any_satisfied (preC ++ fn :: postC) review = .ok res) ∧
    (∀ (review : Review) (r1 r2 : RuleResult),
      all_reviewed_and_resolved review = .ok r1 → r1.completed = true →
      reviewable_lgtm review = .ok r2 →
      condition review = .ok r1) := by
  have general : ∀ (review : Review) (preC : List Rule) (fn : Rule) (postC : List Rule)
      (res : RuleResult),
      (∀ f ∈ preC, ∃ r, f review = .ok r ∧ r.completed = false) →
      fn review = .ok res → res.completed = true →
      (∀ f ∈ postC, ∃ r, f review = .ok r) →
      any_satisfied (preC ++ fn :: postC) review = .ok res := by
    intro review preC fn postC res hpre hfn hres hpost
    obtain ⟨results, hrun, hfind⟩ := runConditions_first review fn res postC hfn hres hpost preC hpre
    simp [any_satisfied, hrun, hfind]
  refine ⟨general, ?_⟩
  intro review r1 r2 h1 hc h2
  have h := general review [] all_reviewed_and_resolved [reviewable_lgtm, github_approved] r1
    (by simp) h1 hc (by
      intro f hf
      simp only [List.mem_cons, List.mem_singleton, List.not_mem_nil, or_false] at hf
      rcases hf with hf | hf
      · exact ⟨r2, by rw [hf]; exact h2⟩
      · exact ⟨_, by rw [hf]; rfl⟩)
  simpa [condition] using h

/-- Witness for C1: on a snapshot where the first two rules are both completed
the condition returns the result of the first rule. -/
theorem any_satisfied_first_completed_witness :
    (∃ r2, reviewable_lgtm bothCompletedReview = .ok r2 ∧ r2.completed = true) ∧
    condition bothCompletedReview =
      .ok { completed := true
            description := "all files reviewed, all discussions resolved"
            shortDescription := "3 files reviewed"
            pendingReviewers := [PendingReviewer.user ⟨"carol", true⟩]
            debug := none } :=
  ⟨⟨_, rfl, rfl⟩,
   any_satisfied_first_completed.2 bothCompletedReview _
    { completed := true
      description := "1 of undefined LGTMs obtained"
      shortDescription := "1/undefined LGTMs"
      pendingReviewers := []
      debug := some [] } rfl rfl rfl⟩

/-- Whenever the rules all return and none is completed, the fallback object
of `any_satisfied` holds `[undefined]` as its `pendingReviewers`, whatever the
rules listed. -/
theorem any_satisfied_fallback_pending (conditions : List Rule) (review : Review)
    (results : List RuleResult) (hrun : runConditions review conditions = .ok results)
    (hnone : ∀ res ∈ results, res.completed = false) :
    ∃ r, any_satisfied conditions review = .ok r ∧ r.completed = false ∧
      r.pendingReviewers = [PendingReviewer.undefined] := by
  have hfind : results.find? (fun res => res.completed) = none := by
    rw [List.find?_eq_none]
    intro res hres
    simp [hnone res hres]
  exact ⟨_, by simp only [any_satisfied, hrun, hfind]; rfl, rfl, rfl⟩

/-- C2. On a snapshot where no rule is completed the fallback object of
`any_satisfied` has `pendingReviewers = [undefined]`: the rules list dave and
bob as pending, and neither username is in the combined result. -/
theorem any_satisfied_fallback_pending_undefined :
    (∃ r, all_reviewed_and_resolved noneCompletedReview = .ok r ∧ r.completed = false ∧
      r.pendingReviewers = [PendingReviewer.named "dave", PendingReviewer.named "bob"]) ∧
    (∃ r, reviewable_lgtm noneCompletedReview = .ok r ∧ r.completed = false ∧
      r.pendingReviewers = [PendingReviewer.named "bob"]) ∧
    (∃ r, github_approved noneCompletedReview = .ok r ∧ r.completed = false ∧
      r.pendingReviewers = [PendingReviewer.undefined, PendingReviewer.named "dave"]) ∧
    (∃ r, condition noneCompletedReview = .ok r ∧ r.completed = false ∧
      r.pendingReviewers = [PendingReviewer.undefined]) :=
  ⟨⟨_, rfl, rfl, rfl⟩, ⟨_, rfl, rfl, rfl⟩, ⟨_, rfl, rfl, rfl⟩, ⟨_, rfl, rfl, rfl⟩⟩

theorem effectiveLastRevision_isSome (file : FileEntry) (h : file.revisions ≠ []) :
    ∃ rev, effectiveLastRevision file = some rev := by
  unfold effectiveLastRevision
  cases hf : (file.revisions.filter (fun rev => !rev.obsolete)).getLast? with
  | some rev => exact ⟨rev, rfl⟩
  | none =>
    cases hl : file.revisions.getLast? with
    | some rev => exact ⟨rev, rfl⟩
    | none => exact absurd (List.getLast?_eq_none_iff.mp hl) h

theorem unreviewedFiles_ok (files : List FileEntry)
    (h : ∀ file ∈ files, file.revisions ≠ []) :
    ∃ l, unreviewedFiles files = .ok l := by
  induction files with
  | nil => exact ⟨[], rfl⟩
  | cons file files ih =>
    obtain ⟨rev, hrev⟩ := effectiveLastRevision_isSome file (h file (List.mem_cons_self _ _))
    obtain ⟨l, hl⟩ := ih (fun g hg => h g (List.mem_cons_of_mem _ hg))
    exact ⟨_, by simp only [unreviewedFiles, hrev, hl]; rfl⟩

theorem mem_unreviewedFiles (files l : List FileEntry) (h : unreviewedFiles files = .ok l)
    (file : FileEntry) :
    file ∈ l ↔ file ∈ files ∧
      ∃ rev, effectiveLastRevision file = some rev ∧ rev.reviewers = [] := by
  induction files generalizing l with
  | nil =>
    simp only [unreviewedFiles, Except.ok.injEq] at h
    subst h
    simp
  | cons g files ih =>
    simp only [unreviewedFiles] at h
    cases hg : effectiveLastRevision g with
    | none => simp [hg] at h
    | some rev =>
      simp only [hg] at h
      cases hrest : unreviewedFiles files with
      | error e => simp [hrest] at h
      | ok rest =>
        simp only [hrest, Except.ok.injEq] at h
        have ih' := ih rest hrest
        by_cases hemp : rev.reviewers = []
        · simp only [hemp, List.isEmpty_nil, if_true] at h
          subst h
          simp only [List.mem_cons, ih']
          constructor
          · rintro (h1 | ⟨h1, h2⟩)
            · subst h1; exact ⟨Or.inl rfl, rev, hg, hemp⟩
            · exact ⟨Or.inr h1, h2⟩
          · rintro ⟨h1 | h1, h2⟩
            · exact Or.inl h1
            · exact Or.inr ⟨h1, h2⟩
        · have hne : rev.reviewers.isEmpty = false := by
            cases hr : rev.reviewers with
            | nil => exact absurd hr hemp
            | cons a as => rfl
          simp only [hne, Bool.false_eq_true, if_false] at h
          subst h
          rw [ih']
          constructor
          · rintro ⟨h1, h2⟩; exact ⟨List.mem_cons_of_mem _ h1, h2⟩
          · rintro ⟨h1, rev2, h2, h3⟩
            rcases List.mem_cons.mp h1 with h1 | h1
            · subst h1
              rw [hg] at h2
              cases h2
              exact absurd h3 hemp
            · exact ⟨h1, rev2, h2, h3⟩

theorem lastReviewed_ok (review : Review) (h : ∀ file ∈ review.files, file.revisions ≠ []) :
    ∃ l, lastReviewedRevisionsOfUnreviewedFiles review = .ok l := by
  obtain ⟨l, hl⟩ := unreviewedFiles_ok review.files h
  exact ⟨_, by simp only [lastReviewedRevisionsOfUnreviewedFiles, hl]; rfl⟩

theorem all_reviewed_ok_of_lastReviewed (review : Review) (l : List (Option FileRevision))
    (h : lastReviewedRevisionsOfUnreviewedFiles review = .ok l) :
    ∃ r, all_reviewed_and_resolved review = .ok r ∧
      r.completed = summaryCompleted review.summary ∧
      r.pendingReviewers =
        (if (blockers review l).isEmpty then
          (if readyToMerge review then
            blockers review l ++ [PendingReviewer.user review.pullRequest.author]
           else blockers review l)
         else blockers review l) := by
  refine ⟨_, by simp only [all_reviewed_and_resolved, h]; rfl, rfl, rfl⟩

theorem summaryCompleted_iff (summary : Summary) :
    summaryCompleted summary = true ↔
      summary.numUnreviewedFiles = 0 ∧ summary.numUnresolvedDiscussions = 0 := by
  simp [summaryCompleted]

/-- C3. On every snapshot whose files all have a revision,
`all_reviewed_and_resolved` returns, and `completed` is true exactly when the
two counters `numUnreviewedFiles` and `numUnresolvedDiscussions` of the
summary are zero; nothing else of the snapshot enters. -/
theorem all_reviewed_completed_iff (review : Review)
    (hfiles : ∀ file ∈ review.files, file.revisions ≠ []) :
    ∃ r, all_reviewed_and_resolved review = .ok r ∧
      (r.completed = true ↔
        review.summary.numUnreviewedFiles = 0 ∧ review.summary.numUnresolvedDiscussions = 0) := by
  obtain ⟨l, hl⟩ := lastReviewed_ok review hfiles
  obtain ⟨r, hr, hc, _⟩ := all_reviewed_ok_of_lastReviewed review l hl
  exact ⟨r, hr, by rw [hc]; exact summaryCompleted_iff _⟩

theorem readyToMerge_iff (review : Review) :
    readyToMerge review = true ↔
      (review.pullRequest.target.branchProtected = true ∧
        review.pullRequest.mergeability ∈ ["has_hooks", "clean", "unstable"]) ∨
      (review.pullRequest.target.branchProtected = false ∧
        review.summary.numUnreviewedFiles = 0 ∧ review.summary.numUnresolvedDiscussions = 0 ∧
        review.pullRequest.mergeability ≠ "draft" ∧
        ∀ check ∈ review.pullRequest.checks, check.required = true → check.success = true) := by
  unfold readyToMerge
  cases hp : review.pullRequest.target.branchProtected with
  | true => simp
  | false =>
    simp only [Bool.false_eq_true, if_false, Bool.and_eq_true, summaryCompleted_iff,
      decide_eq_true_eq, List.all_eq_true, Bool.or_eq_true, Bool.not_eq_true', false_and,
      true_and, false_or]
    constructor
    · rintro ⟨⟨⟨h1, h2⟩, h3⟩, h4⟩
      refine ⟨h1, h2, h3, ?_⟩
      intro check hc hreq
      rcases h4 check hc with h | h
      · rw [h] at hreq; cases hreq
      · exact h
    · rintro ⟨h1, h2, h3, h4⟩
      refine ⟨⟨⟨h1, h2⟩, h3⟩, ?_⟩
      intro check hc
      cases hreq : check.required with
      | false => exact Or.inl rfl
      | true => exact Or.inr (h4 check hc hreq)

theorem blockers_eq_nil_iff (review : Review) (l : List (Option FileRevision)) :
    blockers review l = [] ↔
      fileBlockers l = [] ∧ discussionBlockers review = [] ∧ missingReviewers review l = [] := by
  unfold blockers
  rw [uniqBy_eq_nil]
  simp [and_assoc]

/-- Witness for C3. -/
theorem all_reviewed_completed_iff_witness :
    (∀ file ∈ requestedBobReview.files, file.revisions ≠ []) ∧
    ∃ r, all_reviewed_and_resolved requestedBobReview = .ok r ∧
      (r.completed = true ↔
        requestedBobReview.summary.numUnreviewedFiles = 0 ∧
          requestedBobReview.summary.numUnresolvedDiscussions = 0) :=
  ⟨by decide, all_reviewed_completed_iff requestedBobReview (by decide)⟩

/-- C4, as the code has it. When there is no file blocker, no discussion
blocker and no missing designated reviewer, `all_reviewed_and_resolved`
returns `pendingReviewers = [author]` exactly when the readiness test passes
(protected target: mergeability among `has_hooks`, `clean`, `unstable`;
unprotected target: both counters zero, mergeability not `draft`, every
required check successful), and `pendingReviewers = []` when it fails. -/
theorem all_reviewed_author_pending_iff_ready (review : Review)
    (l : List (Option FileRevision))
    (hl : lastReviewedRevisionsOfUnreviewedFiles review = .ok l)
    (hfile : fileBlockers l = []) (hdisc : discussionBlockers review = [])
    (hmiss : missingReviewers review l = []) :
    ∃ r, all_reviewed_and_resolved review = .ok r ∧
      (r.pendingReviewers = [PendingReviewer.user review.pullRequest.author] ↔
        ((review.pullRequest.target.branchProtected = true ∧
            review.pullRequest.mergeability ∈ ["has_hooks", "clean", "unstable"]) ∨
          (review.pullRequest.target.branchProtected = false ∧
            review.summary.numUnreviewedFiles = 0 ∧
            review.summary.numUnresolvedDiscussions = 0 ∧
            review.pullRequest.mergeability ≠ "draft" ∧
            ∀ check ∈ review.pullRequest.checks,
              check.required = true → check.success = true))) ∧
      (r.pendingReviewers = [] ↔
        ¬ ((review.pullRequest.target.branchProtected = true ∧
            review.pullRequest.mergeability ∈ ["has_hooks", "clean", "unstable"]) ∨
          (review.pullRequest.target.branchProtected = false ∧
            review.summary.numUnreviewedFiles = 0 ∧
            review.summary.numUnresolvedDiscussions = 0 ∧
            review.pullRequest.mergeability ≠ "draft" ∧
            ∀ check ∈ review.pullRequest.checks,
              check.required = true → check.success = true))) := by
  obtain ⟨r, hr, _, hp⟩ := all_reviewed_ok_of_lastReviewed review l hl
  have hb : blockers review l = [] := (blockers_eq_nil_iff review l).mpr ⟨hfile, hdisc, hmiss⟩
  rw [hb] at hp
  refine ⟨r, hr, ?_, ?_⟩
  · rw [← readyToMerge_iff, hp]
    cases readyToMerge review <;> simp
  · rw [← readyToMerge_iff, hp]
    cases readyToMerge review <;> simp

/-- Witness for C4: the ready snapshot of the specification. -/
theorem all_reviewed_author_pending_iff_ready_witness :
    ∃ r, all_reviewed_and_resolved readyReview = .ok r ∧
      (r.pendingReviewers = [PendingReviewer.user readyReview.pullRequest.author] ↔
        ((readyReview.pullRequest.target.branchProtected = true ∧
            readyReview.pullRequest.mergeability ∈ ["has_hooks", "clean", "unstable"]) ∨
          (readyReview.pullRequest.target.branchProtected = false ∧
            readyReview.summary.numUnreviewedFiles = 0 ∧
            readyReview.summary.numUnresolvedDiscussions = 0 ∧
            readyReview.pullRequest.mergeability ≠ "draft" ∧
            ∀ check ∈ readyReview.pullRequest.checks,
              check.required = true → check.success = true))) ∧
      (r.pendingReviewers = [] ↔
        ¬ ((readyReview.pullRequest.target.branchProtected = true ∧
            readyReview.pullRequest.mergeability ∈ ["has_hooks", "clean", "unstable"]) ∨
          (readyReview.pullRequest.target.branchProtected = false ∧
            readyReview.summary.numUnreviewedFiles = 0 ∧
            readyReview.summary.numUnresolvedDiscussions = 0 ∧
            readyReview.pullRequest.mergeability ≠ "draft" ∧
            ∀ check ∈ readyReview.pullRequest.checks,
              check.required = true → check.success = true))) :=
  all_reviewed_author_pending_iff_ready readyReview [] rfl rfl rfl rfl

/-- Counterexample to C4 as stated: on the two snapshots the claim names, the
one that passes the readiness test gets `[author]` and the one with a failing
required check gets `[]`, the reverse of what the claim says. -/
theorem all_reviewed_author_pending_counterexample :
    (∃ r, all_reviewed_and_resolved readyReview = .ok r ∧
      readyToMerge readyReview = true ∧
      r.pendingReviewers = [PendingReviewer.user ⟨"carol", true⟩] ∧ r.pendingReviewers ≠ []) ∧
    (∃ r, all_reviewed_and_resolved failingCheckReview = .ok r ∧
      readyToMerge failingCheckReview = false ∧
      r.pendingReviewers = [] ∧
      r.pendingReviewers ≠ [PendingReviewer.user failingCheckReview.pullRequest.author]) :=
  ⟨⟨_, rfl, rfl, rfl, by decide⟩, ⟨_, rfl, rfl, rfl, by decide⟩⟩

theorem findLast_some {α : Type} (xs : List α) (p : α → Bool) (x : α)
    (h : findLast xs p = some x) : x ∈ xs ∧ p x = true := by
  unfold findLast at h
  exact ⟨List.mem_reverse.mp (List.mem_of_find?_eq_some h), List.find?_some h⟩

theorem findLast_eq_none_iff {α : Type} (xs : List α) (p : α → Bool) :
    findLast xs p = none ↔ ∀ x ∈ xs, p x = false := by
  unfold findLast
  rw [List.find?_eq_none]
  simp

theorem lastReviewed_spec (review : Review) (l : List (Option FileRevision))
    (h : lastReviewedRevisionsOfUnreviewedFiles review = .ok l) :
    ∃ files, unreviewedFiles review.files = .ok files ∧
      l = files.map (fun file => findLast file.revisions (fun rev => !rev.reviewers.isEmpty)) := by
  unfold lastReviewedRevisionsOfUnreviewedFiles at h
  cases hu : unreviewedFiles review.files with
  | error e => simp [hu] at h
  | ok files =>
    simp only [hu, Except.ok.injEq] at h
    exact ⟨files, rfl, h.symm⟩

theorem mem_fileBlockers (review : Review) (l : List (Option FileRevision))
    (h : lastReviewedRevisionsOfUnreviewedFiles review = .ok l) (u : User)
    (hu : u ∈ fileBlockers l) :
    ∃ file ∈ review.files,
      (∃ rev, effectiveLastRevision file = some rev ∧ rev.reviewers = []) ∧
      ∃ rev ∈ file.revisions, u ∈ rev.reviewers := by
  obtain ⟨files, hfiles, hl⟩ := lastReviewed_spec review l h
  unfold fileBlockers at hu
  rw [mem_flatten] at hu
  obtain ⟨us, hus, huin⟩ := hu
  rw [List.mem_map] at hus
  obtain ⟨rev, hrev, rfl⟩ := hus
  rw [List.mem_filterMap] at hrev
  obtain ⟨o, ho, hid⟩ := hrev
  simp only [id] at hid
  subst hid
  rw [hl, List.mem_map] at ho
  obtain ⟨file, hfile, hfind⟩ := ho
  have hmem := (mem_unreviewedFiles review.files files hfiles file).mp hfile
  exact ⟨file, hmem.1, hmem.2, rev, (findLast_some _ _ _ hfind).1, huin⟩

theorem mem_discussionBlockers (review : Review) (e : PendingReviewer)
    (he : e ∈ discussionBlockers review) :
    ∃ d ∈ review.discussions, d.resolved = false ∧
      ∃ p ∈ d.participants, p.resolved = false ∧ e = PendingReviewer.named p.username := by
  unfold discussionBlockers at he
  rw [List.mem_map] at he
  obtain ⟨p, hp, rfl⟩ := he
  rw [List.mem_filter, mem_flatten] at hp
  obtain ⟨⟨ps, hps, hpin⟩, hres⟩ := hp
  rw [List.mem_map] at hps
  obtain ⟨d, hd, rfl⟩ := hps
  rw [List.mem_filter] at hd
  exact ⟨d, hd.1, by simpa using hd.2, p, hpin, by simpa using hres, rfl⟩

theorem mem_missingReviewers (review : Review) (l : List (Option FileRevision)) (u : User)
    (hu : u ∈ missingReviewers review l) : u ∈ designatedReviewers review := by
  unfold missingReviewers at hu
  split at hu
  · exact hu
  · exact (List.mem_filter.mp hu).1

theorem any_isNone_iff (review : Review) (l : List (Option FileRevision))
    (h : lastReviewedRevisionsOfUnreviewedFiles review = .ok l) :
    l.any (fun rev => rev.isNone) = true ↔
      ∃ file ∈ review.files,
        (∃ rev, effectiveLastRevision file = some rev ∧ rev.reviewers = []) ∧
        ∀ rev ∈ file.revisions, rev.reviewers = [] := by
  obtain ⟨files, hfiles, hl⟩ := lastReviewed_spec review l h
  rw [List.any_eq_true]
  constructor
  · rintro ⟨o, ho, hnone⟩
    rw [hl, List.mem_map] at ho
    obtain ⟨file, hfile, hfind⟩ := ho
    have hmem := (mem_unreviewedFiles review.files files hfiles file).mp hfile
    cases o with
    | some rev => simp at hnone
    | none =>
      refine ⟨file, hmem.1, hmem.2, ?_⟩
      intro rev hrev
      have := (findLast_eq_none_iff _ _).mp hfind rev hrev
      simpa using this
  · rintro ⟨file, hfile, heff, hall⟩
    have hmem := (mem_unreviewedFiles review.files files hfiles file).mpr ⟨hfile, heff⟩
    refine ⟨none, ?_, rfl⟩
    rw [hl, List.mem_map]
    refine ⟨file, hmem, ?_⟩
    rw [findLast_eq_none_iff]
    intro rev hrev
    simp [hall rev hrev]

theorem mem_pending_of_all_reviewed (review : Review) (l : List (Option FileRevision))
    (r : RuleResult)
    (hp : r.pendingReviewers =
      (if (blockers review l).isEmpty then
        (if readyToMerge review then
          blockers review l ++ [PendingReviewer.user review.pullRequest.author]
         else blockers review l)
       else blockers review l))
    (e : PendingReviewer) (he : e ∈ r.pendingReviewers) :
    e = PendingReviewer.user review.pullRequest.author ∨ e ∈ blockers review l := by
  rw [hp] at he
  split at he
  · split at he
    · rcases List.mem_append.mp he with h | h
      · exact Or.inr h
      · exact Or.inl (List.mem_singleton.mp h)
    · exact Or.inr he
  · exact Or.inr he

theorem eq_nil_of_forall_not_mem {α : Type} (xs : List α) (h : ∀ x, x ∉ xs) : xs = [] := by
  cases xs with
  | nil => rfl
  | cons x xs => exact absurd (List.mem_cons_self x xs) (h x)

/-- C5, as the code has it. With both counters of the summary at zero (and
every file holding a revision) `all_reviewed_and_resolved` returns
`completed = true`. An entry of `pendingReviewers` is the author, or carries
the username of a reviewer of a revision of a file whose effective last
revision has no reviewer, of an unresolved participant of an unresolved
discussion, or of a designated reviewer. When no file is unreviewed, no
unresolved discussion has an unresolved participant and every designated
reviewer is participating, the list is empty or holds only the author. -/
theorem all_reviewed_zero_counters (review : Review)
    (hfiles : ∀ file ∈ review.files, file.revisions ≠ [])
    (hzeroFiles : review.summary.numUnreviewedFiles = 0)
    (hzeroDisc : review.summary.numUnresolvedDiscussions = 0) :
    ∃ r, all_reviewed_and_resolved review = .ok r ∧ r.completed = true ∧
      (∀ e ∈ r.pendingReviewers,
        e = PendingReviewer.user review.pullRequest.author ∨
        ∃ name, e = PendingReviewer.named name ∧
          ((∃ file ∈ review.files,
              (∃ rev, effectiveLastRevision file = some rev ∧ rev.reviewers = []) ∧
              ∃ rev ∈ file.revisions, ∃ u ∈ rev.reviewers, u.username = name) ∨
            (∃ d ∈ review.discussions, d.resolved = false ∧
              ∃ p ∈ d.participants, p.resolved = false ∧ p.username = name) ∨
            (∃ u ∈ designatedReviewers review, u.username = name))) ∧
      ((∀ file ∈ review.files, ∀ rev, effectiveLastRevision file = some rev →
            rev.reviewers ≠ []) →
        (∀ d ∈ review.discussions, d.resolved = false →
            ∀ p ∈ d.participants, p.resolved = true) →
        (∀ u ∈ designatedReviewers review, u.participating = true) →
        r.pendingReviewers = [] ∨
          r.pendingReviewers = [PendingReviewer.user review.pullRequest.author]) := by
  obtain ⟨l, hl⟩ := lastReviewed_ok review hfiles
  obtain ⟨r, hr, hc, hp⟩ := all_reviewed_ok_of_lastReviewed review l hl
  refine ⟨r, hr, ?_, ?_, ?_⟩
  · rw [hc]
    exact (summaryCompleted_iff _).mpr ⟨hzeroFiles, hzeroDisc⟩
  · intro e he
    rcases mem_pending_of_all_reviewed review l r hp e he with h | h
    · exact Or.inl h
    · right
      have hmem := mem_uniqBy _ _ _ h
      rw [List.mem_append, List.mem_append] at hmem
      rcases hmem with (h1 | h1) | h1
      · rw [List.mem_map] at h1
        obtain ⟨u, hu, rfl⟩ := h1
        obtain ⟨file, hfile, heff, rev, hrev, hin⟩ := mem_fileBlockers review l hl u hu
        exact ⟨u.username, rfl, Or.inl ⟨file, hfile, heff, rev, hrev, u, hin, rfl⟩⟩
      · obtain ⟨d, hd, hres, p, hpin, hpres, rfl⟩ := mem_discussionBlockers review e h1
        exact ⟨p.username, rfl, Or.inr (Or.inl ⟨d, hd, hres, p, hpin, hpres, rfl⟩)⟩
      · rw [List.mem_map] at h1
        obtain ⟨u, hu, rfl⟩ := h1
        exact ⟨u.username, rfl,
          Or.inr (Or.inr ⟨u, mem_missingReviewers review l u hu, rfl⟩)⟩
  · intro hrev hdisc hpart
    obtain ⟨files, hfs, hlmap⟩ := lastReviewed_spec review l hl
    have hnil : files = [] := by
      apply eq_nil_of_forall_not_mem
      intro file hfile
      obtain ⟨hin, rev, heff, hemp⟩ := (mem_unreviewedFiles review.files files hfs file).mp hfile
      exact hrev file hin rev heff hemp
    subst hnil
    simp only [List.map_nil] at hlmap
    subst hlmap
    have hb : blockers review [] = [] := by
      rw [blockers_eq_nil_iff]
      refine ⟨rfl, ?_, ?_⟩
      · apply eq_nil_of_forall_not_mem
        intro e he
        obtain ⟨d, hd, hres, p, hpin, hpres, _⟩ := mem_discussionBlockers review e he
        rw [hdisc d hd hres p hpin] at hpres
        cases hpres
      · apply eq_nil_of_forall_not_mem
        intro u hu
        simp only [missingReviewers, List.any_nil, Bool.false_eq_true, if_false,
          List.mem_filter, beq_iff_eq] at hu
        rw [hpart u hu.1] at hu
        cases hu.2
    rw [hb] at hp
    rw [hp]
    cases readyToMerge review <;> simp

/-- Witness for C5. -/
theorem all_reviewed_zero_counters_witness :
    ∃ r, all_reviewed_and_resolved requestedBobReview = .ok r ∧ r.completed = true ∧
      (∀ e ∈ r.pendingReviewers,
        e = PendingReviewer.user requestedBobReview.pullRequest.author ∨
        ∃ name, e = PendingReviewer.named name ∧
          ((∃ file ∈ requestedBobReview.files,
              (∃ rev, effectiveLastRevision file = some rev ∧ rev.reviewers = []) ∧
              ∃ rev ∈ file.revisions, ∃ u ∈ rev.reviewers, u.username = name) ∨
            (∃ d ∈ requestedBobReview.discussions, d.resolved = false ∧
              ∃ p ∈ d.participants, p.resolved = false ∧ p.username = name) ∨
            (∃ u ∈ designatedReviewers requestedBobReview, u.username = name))) ∧
      ((∀ file ∈ requestedBobReview.files, ∀ rev, effectiveLastRevision file = some rev →
            rev.reviewers ≠ []) →
        (∀ d ∈ requestedBobReview.discussions, d.resolved = false →
            ∀ p ∈ d.participants, p.resolved = true) →
        (∀ u ∈ designatedReviewers requestedBobReview, u.participating = true) →
        r.pendingReviewers = [] ∨
          r.pendingReviewers = [PendingReviewer.user requestedBobReview.pullRequest.author]) :=
  all_reviewed_zero_counters requestedBobReview (by decide) rfl rfl

/-- Counterexample to C5 as stated: both counters are zero, every file is
reviewed and there is no discussion, yet the requested reviewer bob, who is
not the author, is the pending reviewer. -/
theorem all_reviewed_zero_counters_counterexample :
    requestedBobReview.summary.numUnreviewedFiles = 0 ∧
    requestedBobReview.summary.numUnresolvedDiscussions = 0 ∧
    requestedBobReview.pullRequest.author = ⟨"carol", true⟩ ∧
    ∃ r, all_reviewed_and_resolved requestedBobReview = .ok r ∧ r.completed = true ∧
      r.pendingReviewers = [PendingReviewer.named "bob"] ∧
      ¬ (∀ e ∈ r.pendingReviewers,
          e = PendingReviewer.user requestedBobReview.pullRequest.author) :=
  ⟨rfl, rfl, rfl, _, rfl, rfl, rfl, by decide⟩

/-- C6. On a snapshot whose files all have a revision: the designated
reviewers are the requested reviewers when there are any, else the assignees;
if some file with an unreviewed effective last revision has no reviewer on
any revision, the username of every designated reviewer is in the
`pendingReviewers` of `all_reviewed_and_resolved`; if there is no such file,
the missing reviewers are exactly the designated reviewers whose
`participating` flag is false. -/
theorem all_reviewed_missing_designated (review : Review)
    (hfiles : ∀ file ∈ review.files, file.revisions ≠ []) :
    (review.pullRequest.requestedReviewers ≠ [] →
      designatedReviewers review = review.pullRequest.requestedReviewers) ∧
    (review.pullRequest.requestedReviewers = [] →
      designatedReviewers review = review.pullRequest.assignees) ∧
    ∃ r l, all_reviewed_and_resolved review = .ok r ∧
      lastReviewedRevisionsOfUnreviewedFiles review = .ok l ∧
      ((∃ file ∈ review.files,
          (∃ rev, effectiveLastRevision file = some rev ∧ rev.reviewers = []) ∧
          ∀ rev ∈ file.revisions, rev.reviewers = []) →
        ∀ u ∈ designatedReviewers review,
          ∃ e ∈ r.pendingReviewers, e.username? = some u.username) ∧
      ((¬ ∃ file ∈ review.files,
          (∃ rev, effectiveLastRevision file = some rev ∧ rev.reviewers = []) ∧
          ∀ rev ∈ file.revisions, rev.reviewers = []) →
        ∀ u, u ∈ missingReviewers review l ↔
          (u ∈ designatedReviewers review ∧ u.participating = false)) := by
  refine ⟨?_, ?_, ?_⟩
  · intro h
    cases hr : review.pullRequest.requestedReviewers with
    | nil => exact absurd hr h
    | cons a as => simp [designatedReviewers, hr]
  · intro h
    simp [designatedReviewers, h]
  · obtain ⟨l, hl⟩ := lastReviewed_ok review hfiles
    obtain ⟨r, hr, _, hp⟩ := all_reviewed_ok_of_lastReviewed review l hl
    refine ⟨r, l, hr, hl, ?_, ?_⟩
    · intro hnever u hu
      have hany := (any_isNone_iff review l hl).mpr hnever
      have hmiss : missingReviewers review l = designatedReviewers review := by
        simp [missingReviewers, hany]
      have hin : pickUsername u ∈
          (fileBlockers l).map pickUsername ++ discussionBlockers review ++
            (missingReviewers review l).map pickUsername := by
        rw [hmiss]
        exact List.mem_append_right _ (List.mem_map_of_mem _ hu)
      obtain ⟨e, he, hkey⟩ := key_mem_uniqBy PendingReviewer.username? _ _ hin
      have hb : e ∈ blockers review l := he
      have hne : (blockers review l).isEmpty = false := by
        cases hbl : blockers review l with
        | nil => rw [hbl] at hb; cases hb
        | cons a as => rfl
      rw [hne] at hp
      simp only [Bool.false_eq_true, if_false] at hp
      exact ⟨e, by rw [hp]; exact hb, hkey⟩
    · intro hnone u
      have hany : l.any (fun rev => rev.isNone) = false := by
        cases h : l.any (fun rev => rev.isNone) with
        | false => rfl
        | true => exact absurd ((any_isNone_iff review l hl).mp h) hnone
      simp [missingReviewers, hany]

/-- Witness for C6: a file that was never reviewed makes the assignee bob,
although participating, a pending reviewer. -/
theorem all_reviewed_missing_designated_witness :
    (∀ file ∈ neverReviewedReview.files, file.revisions ≠ []) ∧
    ∃ r, all_reviewed_and_resolved neverReviewedReview = .ok r ∧
      r.pendingReviewers = [PendingReviewer.named "bob"] ∧
      ∀ u ∈ designatedReviewers neverReviewedReview,
        ∃ e ∈ r.pendingReviewers, e.username? = some u.username := by
  refine ⟨by decide, ?_⟩
  obtain ⟨r, l, hr, _, h1, _⟩ :=
    (all_reviewed_missing_designated neverReviewedReview (by decide)).2.2
  have hr0 : all_reviewed_and_resolved neverReviewedReview =
      .ok { completed := false
            description := "0 of 1 files reviewed, all discussions resolved"
            shortDescription := "1 file left"
            pendingReviewers := [PendingReviewer.named "bob"]
            debug := none } := rfl
  rw [hr0] at hr
  cases hr
  exact ⟨_, rfl, rfl, h1 ⟨⟨[⟨false, []⟩]⟩, by decide, ⟨⟨false, []⟩, rfl, rfl⟩, by decide⟩⟩

/-! ## Lemmas on the approvals map -/

theorem get_cons (e : String × Bool) (a : Approvals) (v : String) :
    Approvals.get (e :: a) v = if e.1 = v then some e.2 else Approvals.get a v := by
  by_cases h : e.1 = v
  · simp [Approvals.get, List.find?_cons, h]
  · simp [Approvals.get, List.find?_cons, h]

theorem delete_cons (e : String × Bool) (a : Approvals) (u : String) :
    Approvals.delete (e :: a) u =
      if e.1 = u then Approvals.delete a u else e :: Approvals.delete a u := by
  by_cases h : e.1 = u
  · simp [Approvals.delete, List.filter_cons, h]
  · simp [Approvals.delete, List.filter_cons, h]

theorem get_delete_self (a : Approvals) (u : String) : (a.delete u).get u = none := by
  induction a with
  | nil => rfl
  | cons e a ih =>
    rw [delete_cons]
    by_cases h : e.1 = u
    · rw [if_pos h]; exact ih
    · rw [if_neg h, get_cons, if_neg h]; exact ih

theorem get_delete_ne (a : Approvals) (u v : String) (hne : v ≠ u) :
    (a.delete u).get v = a.get v := by
  induction a with
  | nil => rfl
  | cons e a ih =>
    rw [delete_cons, get_cons]
    by_cases h : e.1 = u
    · have hv : ¬ e.1 = v := fun hv => hne (hv ▸ h)
      rw [if_pos h, if_neg hv]; exact ih
    · rw [if_neg h, get_cons]
      by_cases hv : e.1 = v
      · rw [if_pos hv, if_pos hv]
      · rw [if_neg hv, if_neg hv]; exact ih

theorem get_set_self (a : Approvals) (u : String) (b : Bool) : (a.set u b).get u = some b := by
  unfold Approvals.set
  rw [get_cons, if_pos rfl]

theorem get_set_ne (a : Approvals) (u v : String) (b : Bool) (hne : v ≠ u) :
    (a.set u b).get v = a.get v := by
  have h : ¬ u = v := fun h => hne h.symm
  unfold Approvals.set
  rw [get_cons, if_neg h]
  exact get_delete_ne a u v hne

theorem get_applySentiment_ne (last : Nat) (a : Approvals) (s : Sentiment) (v : String)
    (hne : s.username ≠ v) : (applySentiment last a s).get v = a.get v := by
  have hne' : v ≠ s.username := fun h => hne h.symm
  unfold applySentiment
  split
  · exact get_delete_ne a _ v hne'
  · split
    · exact get_set_ne a _ v true hne'
    · split
      · exact get_set_ne a _ v _ hne'
      · rfl

theorem processSentiments_append (last : Nat) (xs ys : List Sentiment) :
    processSentiments last (xs ++ ys) =
      ys.foldl (applySentiment last) (processSentiments last xs) := by
  simp [processSentiments, List.foldl_append]

/-- Folding sentiments that preserve a property of the entry of `u` preserves it. -/
theorem foldl_get_invariant (last : Nat) (u : String) (P : Option Bool → Prop)
    (post : List Sentiment)
    (hstep : ∀ a : Approvals, ∀ t ∈ post, P (a.get u) → P ((applySentiment last a t).get u)) :
    ∀ a : Approvals, P (a.get u) → P ((post.foldl (applySentiment last) a).get u) := by
  induction post with
  | nil => intro a h; exact h
  | cons t post ih =>
    intro a h
    simp only [List.foldl_cons]
    exact ih (fun a' t' ht' => hstep a' t' (List.mem_cons_of_mem _ ht')) _
      (hstep a t (List.mem_cons_self _ _) h)

theorem lastRevisionTimestamp_ok (review : Review)
    (h : ∃ rev ∈ review.revisions, rev.obsolete = false) :
    ∃ last, lastRevisionTimestamp review = .ok last := by
  unfold lastRevisionTimestamp
  cases hl : (review.revisions.filter (fun rev => !rev.obsolete)).getLast? with
  | some rev => exact ⟨_, rfl⟩
  | none =>
    obtain ⟨rev, hin, hobs⟩ := h
    have hnil := List.getLast?_eq_none_iff.mp hl
    have hmem : rev ∈ review.revisions.filter (fun rev => !rev.obsolete) := by
      rw [List.mem_filter]; exact ⟨hin, by simp [hobs]⟩
    rw [hnil] at hmem
    cases hmem

theorem reviewable_lgtm_ok (review : Review) (last : Nat)
    (h : lastRevisionTimestamp review = .ok last) :
    ∃ r, reviewable_lgtm review = .ok r ∧
      r.completed = decide (lgtmNumGranted (processSentiments last review.sentiments)
        (requiredLgtm review) ≥ (DEFAULT_NUM_APPROVALS_REQUIRED : Int)) ∧
      r.pendingReviewers =
        lgtmPendingReviewers (processSentiments last review.sentiments) (requiredLgtm review) := by
  refine ⟨_, by simp only [reviewable_lgtm, h]; rfl, rfl, rfl⟩

theorem key_ne_of_get_none (a : Approvals) (u : String) (h : a.get u = none) :
    ∀ e ∈ a, e.1 ≠ u := by
  induction a with
  | nil => intro e he; cases he
  | cons x a ih =>
    rw [get_cons] at h
    by_cases hx : x.1 = u
    · rw [if_pos hx] at h; cases h
    · rw [if_neg hx] at h
      intro e he
      rcases List.mem_cons.mp he with he | he
      · rw [he]; exact hx
      · exact ih h e he

theorem delete_eq_self (a : Approvals) (u : String) (h : ∀ e ∈ a, e.1 ≠ u) :
    a.delete u = a := by
  unfold Approvals.delete
  rw [List.filter_eq_self]
  intro e he
  simpa using h e he

theorem truthy_of_get_some (a : Approvals) (u : String) (b : Bool) (h : a.get u = some b) :
    a.truthy u = b := by
  unfold Approvals.truthy
  rw [h]

theorem truthy_of_get_none (a : Approvals) (u : String) (h : a.get u = none) :
    a.truthy u = decide (u ∈ inheritedObjectKeys) := by
  unfold Approvals.truthy
  rw [h]

theorem applySentiment_cancel (last : Nat) (a : Approvals) (s : Sentiment)
    (h : "lgtm_cancel" ∈ s.emojis) : applySentiment last a s = a.delete s.username := by
  unfold applySentiment
  rw [if_pos h]

/-- A sentiment with `lgtm_cancel` removes the entry of its user, whatever
its other emojis and whatever the map held, and leaves the other entries as
they were. Hence, when the last sentiment of a user carries `lgtm_cancel`, the
final map of `reviewable_lgtm` has no entry under that username: the counts of
`true` and `false` entries run over entries of other users only. The user is
in `pendingReviewers` exactly when required and not named like a member of
`Object.prototype`, which the read `approvals[username]` would find. -/
theorem cancel_removes_entry (review : Review) (pre post : List Sentiment)
    (s : Sentiment)
    (hsent : review.sentiments = pre ++ s :: post)
    (hcancel : "lgtm_cancel" ∈ s.emojis)
    (hlast : ∀ t ∈ post, t.username ≠ s.username)
    (hrev : ∃ rev ∈ review.revisions, rev.obsolete = false) :
    (∀ (last : Nat) (a : Approvals),
      (applySentiment last a s).get s.username = none ∧
      ∀ v, v ≠ s.username → (applySentiment last a s).get v = a.get v) ∧
    ∃ r last, reviewable_lgtm review = .ok r ∧ lastRevisionTimestamp review = .ok last ∧
      (processSentiments last review.sentiments).get s.username = none ∧
      (∀ e ∈ processSentiments last review.sentiments, e.1 ≠ s.username) ∧
      (processSentiments last review.sentiments).delete s.username =
        processSentiments last review.sentiments ∧
      (PendingReviewer.named s.username ∈ r.pendingReviewers ↔
        (s.username ∈ requiredLgtm review ∧ s.username ∉ inheritedObjectKeys)) := by
  have hstep : ∀ (last : Nat) (a : Approvals),
      (applySentiment last a s).get s.username = none ∧
      ∀ v, v ≠ s.username → (applySentiment last a s).get v = a.get v := by
    intro last a
    rw [applySentiment_cancel last a s hcancel]
    exact ⟨get_delete_self a _, fun v hv => get_delete_ne a _ v hv⟩
  refine ⟨hstep, ?_⟩
  obtain ⟨last, hl⟩ := lastRevisionTimestamp_ok review hrev
  obtain ⟨r, hr, _, hp⟩ := reviewable_lgtm_ok review last hl
  have hnone : (processSentiments last review.sentiments).get s.username = none := by
    have happ : pre ++ s :: post = (pre ++ [s]) ++ post := by simp
    rw [hsent, happ, processSentiments_append]
    apply foldl_get_invariant last s.username (fun o => o = none) post
    · intro a t ht h
      rw [get_applySentiment_ne last a t s.username (hlast t ht)]
      exact h
    · rw [processSentiments_append]
      exact (hstep last _).1
  have hkeys := key_ne_of_get_none _ _ hnone
  refine ⟨r, last, hr, hl, hnone, hkeys, delete_eq_self _ _ hkeys, ?_⟩
  have htruthy := truthy_of_get_none _ _ hnone
  rw [hp]
  unfold lgtmPendingReviewers
  constructor
  · intro hin
    split at hin
    · rw [List.mem_map] at hin
      obtain ⟨u, hu, heq⟩ := hin
      cases heq
      rw [List.mem_filter, htruthy] at hu
      exact ⟨hu.1, by simpa using hu.2⟩
    · cases hin
  · rintro ⟨hreq, hname⟩
    have hlen : (requiredLgtm review).length ≠ 0 := by
      intro h0
      rw [List.length_eq_zero] at h0
      rw [h0] at hreq
      cases hreq
    rw [if_pos hlen, List.mem_map]
    refine ⟨s.username, ?_, rfl⟩
    rw [List.mem_filter, htruthy]
    exact ⟨hreq, by simpa using hname⟩

/-- C8. A user who sent `lgtm_strong` without `lgtm_cancel`, and whose later
sentiments carry no `lgtm_cancel`, has the entry `true` in the final map,
for every timestamp of the latest revision and every timestamp and other
emoji of the sentiments. -/
theorem lgtm_strong_is_sticky (last : Nat) (pre post : List Sentiment) (s : Sentiment)
    (hstrong : "lgtm_strong" ∈ s.emojis)
    (hnocancel : "lgtm_cancel" ∉ s.emojis)
    (hlater : ∀ t ∈ post, t.username = s.username → "lgtm_cancel" ∉ t.emojis) :
    (processSentiments last (pre ++ s :: post)).get s.username = some true := by
  have happ : pre ++ s :: post = (pre ++ [s]) ++ post := by simp
  rw [happ, processSentiments_append]
  apply foldl_get_invariant last s.username (fun o => o = some true) post
  · intro a t ht h
    by_cases hu : t.username = s.username
    · have hnc := hlater t ht hu
      unfold applySentiment
      rw [if_neg hnc]
      split
      · rw [hu]; exact get_set_self a _ true
      · rw [hu, if_neg (fun hc =>
          Bool.noConfusion ((truthy_of_get_some a _ true h).symm.trans hc.2))]
        exact h
    · rw [get_applySentiment_ne last a t s.username hu]
      exact h
  · rw [processSentiments_append]
    simp only [List.foldl_cons, List.foldl_nil]
    unfold applySentiment
    rw [if_neg hnocancel, if_pos hstrong]
    exact get_set_self _ _ true

/-- C9, as the code has it. A user whose name is not that of a member of
`Object.prototype` and who sent a plain `lgtm` (no `lgtm_strong`, no
`lgtm_cancel`) stamped before the latest non-obsolete revision, at a point
where the entry of that user was not `true`, and whose later sentiments carry
no `lgtm_strong`, no `lgtm_cancel` and no `lgtm` stamped at or after that
revision, has the entry `false` in the final map. -/
theorem lgtm_before_revision_is_stale (last : Nat) (pre post : List Sentiment)
    (s : Sentiment)
    (hlgtm : "lgtm" ∈ s.emojis)
    (hnostrong : "lgtm_strong" ∉ s.emojis)
    (hnocancel : "lgtm_cancel" ∉ s.emojis)
    (hbefore : s.timestamp < last)
    (hentry : (processSentiments last pre).get s.username ≠ some true)
    (hname : s.username ∉ inheritedObjectKeys)
    (hlater : ∀ t ∈ post, t.username = s.username →
      "lgtm_strong" ∉ t.emojis ∧ "lgtm_cancel" ∉ t.emojis ∧
        ("lgtm" ∈ t.emojis → t.timestamp < last)) :
    (processSentiments last (pre ++ s :: post)).get s.username = some false := by
  have happ : pre ++ s :: post = (pre ++ [s]) ++ post := by simp
  rw [happ, processSentiments_append]
  apply foldl_get_invariant last s.username (fun o => o = some false) post
  · intro a t ht h
    by_cases hu : t.username = s.username
    · obtain ⟨hns, hnc, hts⟩ := hlater t ht hu
      unfold applySentiment
      rw [if_neg hnc, if_neg hns]
      split
      · rename_i hcond
        have hlt := hts hcond.1
        rw [hu, get_set_self]
        simp [Nat.not_le.mpr hlt]
      · exact h
    · rw [get_applySentiment_ne last a t s.username hu]
      exact h
  · rw [processSentiments_append]
    simp only [List.foldl_cons, List.foldl_nil]
    have htruthy : (processSentiments last (pre ++ [])).truthy s.username = false := by
      rw [List.append_nil]
      cases hget : (processSentiments last pre).get s.username with
      | none =>
        rw [truthy_of_get_none _ _ hget]
        simpa using hname
      | some b =>
        rw [truthy_of_get_some _ _ b hget]
        cases b with
        | false => rfl
        | true => exact absurd hget hentry
    rw [List.append_nil] at htruthy
    unfold applySentiment
    rw [if_neg hnocancel, if_neg hnostrong, if_pos ⟨hlgtm, htruthy⟩, get_set_self]
    simp [Nat.not_le.mpr hbefore]

theorem delete_keys_sublist (a : Approvals) (u : String) :
    ((a.delete u).map Prod.fst).Sublist (a.map Prod.fst) :=
  (List.filter_sublist a).map Prod.fst

theorem not_mem_keys_delete (a : Approvals) (u : String) :
    u ∉ (a.delete u).map Prod.fst := by
  intro h
  rw [List.mem_map] at h
  obtain ⟨e, he, hk⟩ := h
  unfold Approvals.delete at he
  rw [List.mem_filter] at he
  simp [hk] at he

theorem applySentiment_nodup (last : Nat) (a : Approvals) (s : Sentiment)
    (h : (a.map Prod.fst).Nodup) : ((applySentiment last a s).map Prod.fst).Nodup := by
  have hdel : ∀ u, ((a.delete u).map Prod.fst).Nodup :=
    fun u => h.sublist (delete_keys_sublist a u)
  have hset : ∀ u b, ((a.set u b).map Prod.fst).Nodup := by
    intro u b
    unfold Approvals.set
    rw [List.map_cons, List.nodup_cons]
    exact ⟨not_mem_keys_delete a u, hdel u⟩
  unfold applySentiment
  split
  · exact hdel _
  · split
    · exact hset _ _
    · split
      · exact hset _ _
      · exact h

theorem processSentiments_nodup (last : Nat) (sentiments : List Sentiment) :
    ((processSentiments last sentiments).map Prod.fst).Nodup := by
  unfold processSentiments
  have : ∀ (a : Approvals), (a.map Prod.fst).Nodup →
      ((sentiments.foldl (applySentiment last) a).map Prod.fst).Nodup := by
    induction sentiments with
    | nil => intro a h; exact h
    | cons s ss ih =>
      intro a h
      exact ih _ (applySentiment_nodup last a s h)
  exact this [] List.nodup_nil

theorem mem_iff_get (a : Approvals) (h : (a.map Prod.fst).Nodup) (u : String) (b : Bool) :
    (u, b) ∈ a ↔ a.get u = some b := by
  induction a with
  | nil => simp [Approvals.get]
  | cons e a ih =>
    rw [List.map_cons, List.nodup_cons] at h
    rw [get_cons, List.mem_cons]
    by_cases he : e.1 = u
    · rw [if_pos he]
      constructor
      · rintro (h1 | h1)
        · rw [← h1]
        · exact absurd (List.mem_map_of_mem Prod.fst h1) (by simpa [he] using h.1)
      · intro h1
        left
        cases h1
        exact Prod.ext he.symm rfl
    · rw [if_neg he, ← ih h.2]
      constructor
      · rintro (h1 | h1)
        · exact absurd (by rw [← h1]) he
        · exact h1
      · exact Or.inr

/-- The usernames counted by `_(approvals).pick(required).countBy().value().true`. -/
theorem grantedRequired_spec (a : Approvals) (h : (a.map Prod.fst).Nodup)
    (required : List String) :
    ∃ K : List String, K.Nodup ∧ K.length = countValue (pickKeys a required) true ∧
      ∀ u, u ∈ K ↔ (u ∈ required ∧ a.get u = some true) := by
  refine ⟨(((pickKeys a required).filter (fun entry => entry.2 == true)).map Prod.fst), ?_, ?_, ?_⟩
  · apply h.sublist
    exact ((List.filter_sublist _).trans (List.filter_sublist _)).map Prod.fst
  · rw [List.length_map, countValue, List.countP_eq_length_filter]
  · intro u
    rw [List.mem_map]
    constructor
    · rintro ⟨e, he, rfl⟩
      rw [List.mem_filter] at he
      unfold pickKeys at he
      rw [List.mem_filter] at he
      obtain ⟨⟨hin, hreq⟩, hval⟩ := he
      refine ⟨by simpa using hreq, ?_⟩
      rw [← mem_iff_get a h]
      have : e = (e.1, true) := Prod.ext rfl (by simpa using hval)
      rw [← this]
      exact hin
    · rintro ⟨hreq, hget⟩
      refine ⟨(u, true), ?_, rfl⟩
      rw [List.mem_filter]
      unfold pickKeys
      rw [List.mem_filter]
      exact ⟨⟨(mem_iff_get a h u true).mpr hget, by simpa using hreq⟩, rfl⟩

theorem grantedRequired_ge_iff (a : Approvals) (h : (a.map Prod.fst).Nodup)
    (required : List String) (hreq : required.Nodup) :
    required.length ≤ countValue (pickKeys a required) true ↔
      ∀ u ∈ required, a.get u = some true := by
  obtain ⟨K, hK, hlen, hmem⟩ := grantedRequired_spec a h required
  rw [← hlen]
  have hsub : K ⊆ required := fun u hu => ((hmem u).mp hu).1
  constructor
  · intro hle u hu
    have hperm := (List.subperm_of_subset hK hsub).perm_of_length_le hle
    exact ((hmem u).mp (hperm.symm.subset hu)).2
  · intro hall
    have hsub' : required ⊆ K := fun u hu => (hmem u).mpr ⟨hu, hall u hu⟩
    exact (List.subperm_of_subset hreq hsub').length_le

/-- The sentiment with both `lgtm_strong` and `lgtm_cancel` leaves alice
without an entry, and she is pending. -/
theorem cancel_removes_entry_alice :
    ∃ r last, reviewable_lgtm canceledReview = .ok r ∧
      lastRevisionTimestamp canceledReview = .ok last ∧
      (processSentiments last canceledReview.sentiments).get "alice" = none ∧
      (∀ e ∈ processSentiments last canceledReview.sentiments, e.1 ≠ "alice") ∧
      (processSentiments last canceledReview.sentiments).delete "alice" =
        processSentiments last canceledReview.sentiments ∧
      (PendingReviewer.named "alice" ∈ r.pendingReviewers ↔
        ("alice" ∈ requiredLgtm canceledReview ∧ "alice" ∉ inheritedObjectKeys)) :=
  (cancel_removes_entry canceledReview [⟨"alice", ["lgtm_strong"], 5⟩]
    [⟨"bob", ["lgtm"], 7⟩] ⟨"alice", ["lgtm_strong", "lgtm_cancel"], 6⟩ rfl
    (by decide) (by decide) ⟨⟨false, 3⟩, by decide, rfl⟩).2

/-- Witness for C8: a later plain LGTM stamped before the latest revision
leaves the strong LGTM in place. -/
theorem lgtm_strong_is_sticky_witness :
    (processSentiments 3 strongThenPlainReview.sentiments).get "alice" = some true :=
  lgtm_strong_is_sticky 3 [] [⟨"alice", ["lgtm"], 2⟩] ⟨"alice", ["lgtm_strong"], 1⟩
    (by decide) (by decide) (by decide)

/-- Witness for C9 as amended: two LGTMs, both stamped before the revision. -/
theorem lgtm_before_revision_is_stale_witness :
    (processSentiments 3 [⟨"alice", ["lgtm"], 1⟩, ⟨"alice", ["lgtm"], 2⟩]).get "alice" =
      some false :=
  lgtm_before_revision_is_stale 3 [] [⟨"alice", ["lgtm"], 2⟩] ⟨"alice", ["lgtm"], 1⟩
    (by decide) (by decide) (by decide) (by decide) (by decide) (by decide) (by decide)

/-- Counterexample to C9 as stated. In both snapshots alice sent a plain
`lgtm` stamped before the latest non-obsolete revision (time 3) and nothing
with `lgtm_strong` or `lgtm_cancel` afterwards, and her final entry is `true`:
once because a later `lgtm` stamped after the revision renews the entry, once
because an earlier `lgtm_strong` is kept. She counts toward `numGranted`. -/
theorem lgtm_before_revision_counterexample :
    (lastRevisionTimestamp renewedLgtmReview = .ok 3 ∧
      (processSentiments 3 renewedLgtmReview.sentiments).get "alice" = some true ∧
      lgtmNumGranted (processSentiments 3 renewedLgtmReview.sentiments)
        (requiredLgtm renewedLgtmReview) = 1) ∧
    (lastRevisionTimestamp strongThenPlainReview = .ok 3 ∧
      (processSentiments 3 strongThenPlainReview.sentiments).get "alice" = some true ∧
      lgtmNumGranted (processSentiments 3 strongThenPlainReview.sentiments)
        (requiredLgtm strongThenPlainReview) = 1) :=
  ⟨⟨rfl, rfl, rfl⟩, ⟨rfl, rfl, rfl⟩⟩

/-- With a non-empty list of designated reviewers of pairwise distinct
usernames (and a non-obsolete revision to take the timestamp from),
`reviewable_lgtm` returns `completed = true` exactly when every designated
reviewer has the entry `true` in the approvals map; when no designated
reviewer is named like a member of `Object.prototype`, that is exactly when
the returned `pendingReviewers` is empty. -/
theorem completed_iff_all_designated (review : Review)
    (hne : designatedReviewers review ≠ [])
    (hnodup : ((designatedReviewers review).map (fun u => u.username)).Nodup)
    (hrev : ∃ rev ∈ review.revisions, rev.obsolete = false) :
    ∃ r last, reviewable_lgtm review = .ok r ∧ lastRevisionTimestamp review = .ok last ∧
      (r.completed = true ↔
        ∀ u ∈ designatedReviewers review,
          (processSentiments last review.sentiments).get u.username = some true) ∧
      ((∀ u ∈ designatedReviewers review, u.username ∉ inheritedObjectKeys) →
        (r.completed = true ↔ r.pendingReviewers = [])) := by
  obtain ⟨last, hl⟩ := lastRevisionTimestamp_ok review hrev
  obtain ⟨r, hr, hc, hp⟩ := reviewable_lgtm_ok review last hl
  have hlen : (requiredLgtm review).length ≠ 0 := by
    intro h0
    rw [List.length_eq_zero] at h0
    exact hne (List.map_eq_nil_iff.mp h0)
  have hkey := grantedRequired_ge_iff (processSentiments last review.sentiments)
    (processSentiments_nodup last review.sentiments) (requiredLgtm review) hnodup
  have hcompleted : r.completed = true ↔
      ∀ u ∈ requiredLgtm review,
        (processSentiments last review.sentiments).get u = some true := by
    rw [hc, ← hkey, decide_eq_true_iff]
    unfold lgtmNumGranted DEFAULT_NUM_APPROVALS_REQUIRED
    rw [if_pos hlen]
    have hpos : 0 < (requiredLgtm review).length := Nat.pos_of_ne_zero hlen
    constructor
    · intro h
      have := min_le_right
        ((countValue (processSentiments last review.sentiments) true : Nat) : Int)
        (((1 : Nat) : Int) - ((requiredLgtm review).length : Int))
      omega
    · intro h
      have hmin : min ((countValue (processSentiments last review.sentiments) true : Nat) : Int)
          (((1 : Nat) : Int) - ((requiredLgtm review).length : Int)) =
          ((1 : Nat) : Int) - ((requiredLgtm review).length : Int) := by
        apply min_eq_right
        omega
      rw [hmin]
      omega
  refine ⟨r, last, hr, hl, ?_, ?_⟩
  · rw [hcompleted]
    unfold requiredLgtm
    simp only [List.mem_map, forall_exists_index, and_imp, forall_apply_eq_imp_iff₂]
  · intro hnames
    rw [hcompleted, hp]
    unfold lgtmPendingReviewers
    rw [if_pos hlen, List.map_eq_nil_iff, List.filter_eq_nil_iff]
    constructor
    · intro hall u hu
      simp [truthy_of_get_some _ _ true (hall u hu)]
    · intro hall u hu
      have hname : u ∉ inheritedObjectKeys := by
        unfold requiredLgtm at hu
        rw [List.mem_map] at hu
        obtain ⟨d, hd, rfl⟩ := hu
        exact hnames d hd
      have ht := hall u hu
      cases hget : (processSentiments last review.sentiments).get u with
      | none =>
        rw [truthy_of_get_none _ _ hget] at ht
        simp [hname] at ht
      | some b =>
        rw [truthy_of_get_some _ _ b hget] at ht
        cases b with
        | true => rfl
        | false => simp at ht

/-- The strong LGTM of the outsider zed does not complete the rule while the
requested reviewer bob has given none. -/
theorem completed_iff_all_designated_outsider :
    ∃ r, reviewable_lgtm outsiderLgtmReview = .ok r ∧ r.completed = false ∧
      r.pendingReviewers = [PendingReviewer.named "bob"] ∧
      (r.completed = true ↔ r.pendingReviewers = []) := by
  obtain ⟨r, last, hr, _, _, h⟩ := completed_iff_all_designated outsiderLgtmReview
    (by decide) (by decide) ⟨⟨false, 3⟩, by decide, rfl⟩
  have h := h (by decide)
  have hr0 : reviewable_lgtm outsiderLgtmReview =
      .ok { completed := false
            description := "0 of 2 LGTMs obtained"
            shortDescription := "0/2 LGTMs"
            pendingReviewers := [PendingReviewer.named "bob"]
            debug := some [] } := rfl
  rw [hr0] at hr
  cases hr
  exact ⟨_, rfl, rfl, rfl, h⟩

/-- C7. The requested reviewer named `constructor` sent a strong LGTM and
canceled it: the cancel removes the entry, and the final map has none for that
user. The claim then lists the user in `pendingReviewers`; the code reads
`approvals[username]` in the `reject`, finds the member every object inherits
under that name, and returns an empty list. -/
theorem lgtm_cancel_inherited_name_not_pending :
    lastRevisionTimestamp canceledInheritedNameReview = .ok 3 ∧
    requiredLgtm canceledInheritedNameReview = ["constructor"] ∧
    (processSentiments 3 [⟨"constructor", ["lgtm_strong"], 5⟩]).get "constructor" =
      some true ∧
    (processSentiments 3 canceledInheritedNameReview.sentiments).get "constructor" = none ∧
    (processSentiments 3 canceledInheritedNameReview.sentiments).truthy "constructor" = true ∧
    reviewable_lgtm canceledInheritedNameReview =
      .ok { completed := false
            description := "0 of 1 LGTMs obtained"
            shortDescription := "0/1 LGTMs"
            pendingReviewers := []
            debug := some [] } :=
  ⟨rfl, rfl, rfl, rfl, rfl, rfl⟩

/-- C10. The only designated reviewer is named `constructor` and has sent
nothing: there is no `true` entry, `completed` is false, and yet
`pendingReviewers` is empty, the read `approvals[username]` in the `reject`
finding the inherited member. The two sides of the claim differ. -/
theorem lgtm_inherited_name_pending_empty_not_completed :
    designatedReviewers inheritedNameReview = [⟨"constructor", true⟩] ∧
    lastRevisionTimestamp inheritedNameReview = .ok 3 ∧
    (processSentiments 3 inheritedNameReview.sentiments).get "constructor" = none ∧
    (∃ r, reviewable_lgtm inheritedNameReview = .ok r ∧
      r.completed = false ∧ r.pendingReviewers = [] ∧
      ¬ (r.completed = true ↔ r.pendingReviewers = [])) ∧
    reviewable_lgtm inheritedNameReview =
      .ok { completed := false
            description := "0 of 1 LGTMs obtained"
            shortDescription := "0/1 LGTMs"
            pendingReviewers := []
            debug := some [] } :=
  ⟨rfl, rfl, rfl, ⟨_, rfl, rfl, rfl, by decide⟩, rfl⟩

/-! ## Rule 3: the approval count -/

theorem stringPropertyTruthy_approved (value : String) :
    stringPropertyTruthy value "approved" = false := rfl

theorem stringPropertyTruthy_changes_requested (value : String) :
    stringPropertyTruthy value "changes_requested" = false := rfl

theorem filterByProperty_approved (object : List (String × String)) :
    filterByProperty object "approved" = [] := by
  unfold filterByProperty
  rw [List.filter_eq_nil_iff]
  intro entry _
  simp [stringPropertyTruthy_approved]

theorem githubNumApprovalsRequired_pos (review : Review) :
    1 ≤ githubNumApprovalsRequired review ∧
      (requiredGithub review).length ≤ githubNumApprovalsRequired review := by
  unfold githubNumApprovalsRequired DEFAULT_NUM_APPROVALS_REQUIRED
  split
  · exact ⟨le_max_right _ _, le_max_left _ _⟩
  · rename_i h
    have h0 : (requiredGithub review).length = 0 := by
      by_contra hne
      exact h hne
    omega

theorem githubNumApprovals_eq_zero (review : Review) : githubNumApprovals review = 0 := by
  have hreq := (githubNumApprovalsRequired_pos review).2
  unfold githubNumApprovals
  simp only [filterByProperty_approved, List.length_nil, Nat.cast_zero, zero_add]
  split
  · apply min_eq_left
    omega
  · rfl

theorem github_approved_ok (review : Review) :
    ∃ r, github_approved review = .ok r ∧
      r.completed = decide (githubNumApprovals review ≥ (githubNumApprovalsRequired review : Int)) ∧
      r.pendingReviewers = uniqBy PendingReviewer.username? (githubPendingReviewers review) :=
  ⟨_, rfl, rfl, rfl⟩

/-- C13. On the snapshot of the fifth scenario (bob assigned, carol the
author, bob approved) `github_approved` reports `0 of 1 approvals obtained`
and `completed = false`: the string `approved` given to `_.filter` is the
property shorthand, and no state string has a property of that name. -/
theorem github_approved_counts_no_approval :
    requiredGithub bobApprovedReview = ["bob"] ∧
    approvalState bobApprovedReview.pullRequest.approvals "bob" = some "approved" ∧
    githubNumApprovalsRequired bobApprovedReview = 1 ∧
    githubNumApprovals bobApprovedReview = 0 ∧
    github_approved bobApprovedReview =
      .ok { completed := false
            description := "0 of 1 approvals obtained"
            shortDescription := "0 of 1 ✓"
            pendingReviewers := []
            debug := none } :=
  ⟨rfl, rfl, rfl, rfl, rfl⟩

/-- C14. When some user has the state `changes_requested`, `github_approved`
returns `completed = false`, however many users approved. (The count of
approvals is zero on every snapshot and the requirement is at least one.) -/
theorem github_changes_requested_not_completed (review : Review) :
    (∃ username,
      approvalState review.pullRequest.approvals username = some "changes_requested") →
    ∃ r, github_approved review = .ok r ∧ r.completed = false := by
  intro _
  obtain ⟨r, hr, hc, _⟩ := github_approved_ok review
  refine ⟨r, hr, ?_⟩
  rw [hc, githubNumApprovals_eq_zero, decide_eq_false_iff_not]
  have := (githubNumApprovalsRequired_pos review).1
  omega

/-- Witness for C14: two approvals and one change request. -/
theorem github_changes_requested_not_completed_witness :
    approvalState changesRequestedReview.pullRequest.approvals "dave" =
      some "changes_requested" ∧
    approvalState changesRequestedReview.pullRequest.approvals "alice" = some "approved" ∧
    approvalState changesRequestedReview.pullRequest.approvals "bob" = some "approved" ∧
    ∃ r, github_approved changesRequestedReview = .ok r ∧ r.completed = false :=
  ⟨rfl, rfl, rfl, github_changes_requested_not_completed changesRequestedReview ⟨"dave", rfl⟩⟩

/-- C15. With bob and erin assigned and without a platform state, zed
requested and dave unresolved in a discussion, `github_approved` returns
`undefined` in place of the required users: the arrow function
`username => {username}` has a block body. Neither bob nor erin is in the
list by username. -/
theorem github_pending_required_undefined :
    requiredGithub unapprovedAssigneesReview = ["bob", "erin"] ∧
    approvalState unapprovedAssigneesReview.pullRequest.approvals "bob" = none ∧
    approvalState unapprovedAssigneesReview.pullRequest.approvals "erin" = none ∧
    ∃ r, github_approved unapprovedAssigneesReview = .ok r ∧
      r.pendingReviewers =
        [PendingReviewer.undefined, PendingReviewer.named "dave",
          PendingReviewer.user ⟨"zed", true⟩] ∧
      (∀ e ∈ r.pendingReviewers,
        e.username? ≠ some "bob" ∧ e.username? ≠ some "erin") :=
  ⟨rfl, rfl, rfl, _, rfl, rfl, by decide⟩

/-! ## Rule 2: the counts reported -/

theorem lgtmNumApprovalsRequired_of_ne_nil (required : List String) (h : required ≠ []) :
    lgtmNumApprovalsRequired required = some required.length := by
  have hlen : required.length ≠ 0 := fun h0 => h (List.length_eq_zero.mp h0)
  unfold lgtmNumApprovalsRequired DEFAULT_NUM_APPROVALS_REQUIRED
  rw [if_pos hlen]
  congr 1
  apply max_eq_left
  omega

theorem grantedRequired_le_length (a : Approvals) (h : (a.map Prod.fst).Nodup)
    (required : List String) :
    countValue (pickKeys a required) true ≤ required.length := by
  obtain ⟨K, hK, hlen, hmem⟩ := grantedRequired_spec a h required
  rw [← hlen]
  exact (List.subperm_of_subset hK (fun u hu => ((hmem u).mp hu).1)).length_le

theorem lgtmNumGranted_of_ne_nil (a : Approvals) (required : List String)
    (h : required ≠ []) :
    lgtmNumGranted a required =
      (countValue (pickKeys a required) true : Int) + 1 - (required.length : Int) := by
  have hlen : required.length ≠ 0 := fun h0 => h (List.length_eq_zero.mp h0)
  unfold lgtmNumGranted DEFAULT_NUM_APPROVALS_REQUIRED
  rw [if_pos hlen]
  have hmin : min ((countValue a true : Nat) : Int) (((1 : Nat) : Int) - (required.length : Int)) =
      ((1 : Nat) : Int) - (required.length : Int) := by
    apply min_eq_right
    omega
  rw [hmin]
  omega

theorem defaultNumGranted_of_ne_nil (a : Approvals) (required : List String)
    (h : required ≠ []) :
    defaultNumApprovalsRequired required = required.length ∧
    defaultNumGranted a required = (countValue (pickKeys a required) true : Int) := by
  have hlen : required.length ≠ 0 := fun h0 => h (List.length_eq_zero.mp h0)
  have hreq : defaultNumApprovalsRequired required = required.length := by
    unfold defaultNumApprovalsRequired
    rw [if_pos hlen]
    apply max_eq_left
    omega
  refine ⟨hreq, ?_⟩
  unfold defaultNumGranted
  rw [if_pos hlen, hreq]
  have hmin : min ((countValue a true : Nat) : Int)
      ((required.length : Int) - (required.length : Int)) = 0 := by
    rw [sub_self]
    apply min_eq_right
    omega
  rw [hmin]
  omega

/-- C11. With alice and bob requested and strong LGTMs from alice and the
outsider zed, the formula of the claim gives `1 + min(2, 2 - 2) = 1`, while
`reviewable_lgtm` takes `DEFAULT_NUM_APPROVALS_REQUIRED - required.length`
inside the minimum, computes `1 + min(2, 1 - 2) = 0` and reports
`0 of 2 LGTMs obtained`. -/
theorem lgtm_num_granted_uses_default_constant :
    lastRevisionTimestamp outsiderLgtmReview = .ok 3 ∧
    requiredLgtm outsiderLgtmReview = ["alice", "bob"] ∧
    countValue (pickKeys (processSentiments 3 outsiderLgtmReview.sentiments)
      (requiredLgtm outsiderLgtmReview)) true = 1 ∧
    countValue (processSentiments 3 outsiderLgtmReview.sentiments) true = 2 ∧
    lgtmNumApprovalsRequired (requiredLgtm outsiderLgtmReview) = some 2 ∧
    ((1 : Int) + min (2 : Int) ((2 : Int) - 2) = 1) ∧
    lgtmNumGranted (processSentiments 3 outsiderLgtmReview.sentiments)
      (requiredLgtm outsiderLgtmReview) = 0 ∧
    reviewable_lgtm outsiderLgtmReview =
      .ok { completed := false
            description := "0 of 2 LGTMs obtained"
            shortDescription := "0/2 LGTMs"
            pendingReviewers := [PendingReviewer.named "bob"]
            debug := some [] } :=
  ⟨rfl, rfl, rfl, rfl, rfl, by decide, rfl, rfl⟩

/-- C12. With no requested reviewer and no assignee the variable
`numApprovalsRequired` of `reviewable_lgtm` is never assigned, and the
descriptions read `undefined` where the claim has `1`; the list of pending
reviewers is empty and `completed` holds, one user having a `true` entry. -/
theorem lgtm_no_designated_reports_undefined :
    noDesignatedReview.pullRequest.requestedReviewers = [] ∧
    noDesignatedReview.pullRequest.assignees = [] ∧
    lgtmNumApprovalsRequired (requiredLgtm noDesignatedReview) = none ∧
    reviewable_lgtm noDesignatedReview =
      .ok { completed := true
            description := "1 of undefined LGTMs obtained, and 1 stale"
            shortDescription := "1/undefined LGTMs, 1 stale"
            pendingReviewers := []
            debug := some [] } :=
  ⟨rfl, rfl, rfl, rfl⟩

/-- C16. With a non-empty required set the count a rule reports is at most
the requirement it reports: in `reviewable_lgtm` the requirement is the
number of designated reviewers and `numGranted` is at most that number for
every timestamp of the latest revision, in `github_approved` the requirement
is the number of assignees other than the author and `numApprovals` is at
most that number. -/
theorem approval_count_within_requirement (review : Review) :
    (requiredLgtm review ≠ [] →
      lgtmNumApprovalsRequired (requiredLgtm review) = some (requiredLgtm review).length ∧
      ∀ last : Nat,
        lgtmNumGranted (processSentiments last review.sentiments) (requiredLgtm review) ≤
          ((requiredLgtm review).length : Int)) ∧
    (requiredGithub review ≠ [] →
      githubNumApprovalsRequired review = (requiredGithub review).length ∧
      githubNumApprovals review ≤ (githubNumApprovalsRequired review : Int)) := by
  constructor
  · intro h
    refine ⟨lgtmNumApprovalsRequired_of_ne_nil _ h, ?_⟩
    intro last
    rw [lgtmNumGranted_of_ne_nil _ _ h]
    have hk := grantedRequired_le_length (processSentiments last review.sentiments)
      (processSentiments_nodup last review.sentiments) (requiredLgtm review)
    have hlen : (requiredLgtm review).length ≠ 0 := fun h0 => h (List.length_eq_zero.mp h0)
    omega
  · intro h
    have hlen : (requiredGithub review).length ≠ 0 := fun h0 => h (List.length_eq_zero.mp h0)
    constructor
    · unfold githubNumApprovalsRequired DEFAULT_NUM_APPROVALS_REQUIRED
      rw [if_pos hlen]
      apply max_eq_left
      omega
    · rw [githubNumApprovals_eq_zero]
      omega

/-- Witness for C16: three outsiders with a strong LGTM and a platform
approval do not lift either count above its requirement. -/
theorem approval_count_within_requirement_witness :
    (lgtmNumApprovalsRequired (requiredLgtm manyOutsidersReview) =
        some (requiredLgtm manyOutsidersReview).length ∧
      ∀ last : Nat,
        lgtmNumGranted (processSentiments last manyOutsidersReview.sentiments)
          (requiredLgtm manyOutsidersReview) ≤ ((requiredLgtm manyOutsidersReview).length : Int)) ∧
    (githubNumApprovalsRequired manyOutsidersReview = (requiredGithub manyOutsidersReview).length ∧
      githubNumApprovals manyOutsidersReview ≤
        (githubNumApprovalsRequired manyOutsidersReview : Int)) :=
  ⟨(approval_count_within_requirement manyOutsidersReview).1 (by decide),
   (approval_count_within_requirement manyOutsidersReview).2 (by decide)⟩

/-- C19. On every snapshot with a non-obsolete review revision,
`reviewable_lgtm` and the LGTM condition of `default-2021-01-05.js` both
return, with the same `completed` flag and the same `pendingReviewers`; with
`n ≥ 1` required users the first reports `numGranted` lower by `n - 1`. -/
theorem lgtm_agrees_with_default (review : Review)
    (hrev : ∃ rev ∈ review.revisions, rev.obsolete = false) :
    ∃ r r' last, reviewable_lgtm review = .ok r ∧ default_lgtm_condition review = .ok r' ∧
      lastRevisionTimestamp review = .ok last ∧
      r.completed = r'.completed ∧ r.pendingReviewers = r'.pendingReviewers ∧
      (requiredLgtm review ≠ [] →
        lgtmNumGranted (processSentiments last review.sentiments) (requiredLgtm review) =
          defaultNumGranted (processSentiments last review.sentiments) (requiredLgtm review) -
            (((requiredLgtm review).length : Int) - 1)) := by
  obtain ⟨last, hl⟩ := lastRevisionTimestamp_ok review hrev
  obtain ⟨r, hr, hc, hp⟩ := reviewable_lgtm_ok review last hl
  have hd : ∃ r', default_lgtm_condition review = .ok r' ∧
      r'.completed = decide (defaultNumGranted (processSentiments last review.sentiments)
        (requiredLgtm review) ≥ (defaultNumApprovalsRequired (requiredLgtm review) : Int)) ∧
      r'.pendingReviewers =
        lgtmPendingReviewers (processSentiments last review.sentiments) (requiredLgtm review) :=
    ⟨_, by simp only [default_lgtm_condition, hl]; rfl, rfl, rfl⟩
  obtain ⟨r', hr', hc', hp'⟩ := hd
  refine ⟨r, r', last, hr, hr', hl, ?_, by rw [hp, hp'], ?_⟩
  · rw [hc, hc']
    by_cases hne : requiredLgtm review = []
    · simp [lgtmNumGranted, defaultNumGranted, defaultNumApprovalsRequired,
        DEFAULT_NUM_APPROVALS_REQUIRED, hne]
    · obtain ⟨hreq, hg⟩ := defaultNumGranted_of_ne_nil
        (processSentiments last review.sentiments) (requiredLgtm review) hne
      rw [lgtmNumGranted_of_ne_nil _ _ hne, hg, hreq]
      unfold DEFAULT_NUM_APPROVALS_REQUIRED
      apply decide_eq_decide.mpr
      constructor <;> intro h <;> omega
  · intro hne
    obtain ⟨_, hg⟩ := defaultNumGranted_of_ne_nil
      (processSentiments last review.sentiments) (requiredLgtm review) hne
    rw [lgtmNumGranted_of_ne_nil _ _ hne, hg]
    omega

/-- Witness for C19: the two conditions agree on `completed` and on the
pending reviewers and report different counts. -/
theorem lgtm_agrees_with_default_witness :
    (∃ r, reviewable_lgtm outsiderLgtmReview = .ok r ∧
      r.description = "0 of 2 LGTMs obtained") ∧
    (∃ r', default_lgtm_condition outsiderLgtmReview = .ok r' ∧
      r'.description = "1 of 2 LGTMs obtained") ∧
    ∃ r r' last, reviewable_lgtm outsiderLgtmReview = .ok r ∧
      default_lgtm_condition outsiderLgtmReview = .ok r' ∧
      lastRevisionTimestamp outsiderLgtmReview = .ok last ∧
      r.completed = r'.completed ∧ r.pendingReviewers = r'.pendingReviewers :=
  ⟨⟨_, rfl, rfl⟩, ⟨_, rfl, rfl⟩, by
    obtain ⟨r, r', last, h1, h2, h3, h4, h5, _⟩ :=
      lgtm_agrees_with_default outsiderLgtmReview ⟨⟨false, 3⟩, by decide, rfl⟩
    exact ⟨r, r', last, h1, h2, h3, h4, h5⟩⟩

/-- C20. With alice, bob and dan requested and no sentiment, nobody has a
`true` entry and `reviewable_lgtm` computes `numGranted = 0 + min(0, 1 - 3)`,
a negative number, and reports `-2 of 3 LGTMs obtained`. -/
theorem lgtm_num_granted_negative :
    lastRevisionTimestamp threeRequestedReview = .ok 3 ∧
    countValue (processSentiments 3 threeRequestedReview.sentiments) true = 0 ∧
    lgtmNumGranted (processSentiments 3 threeRequestedReview.sentiments)
      (requiredLgtm threeRequestedReview) = -2 ∧
    reviewable_lgtm threeRequestedReview =
      .ok { completed := false
            description := "-2 of 3 LGTMs obtained"
            shortDescription := "-2/3 LGTMs"
            pendingReviewers := [PendingReviewer.named "alice", PendingReviewer.named "bob",
              PendingReviewer.named "dan"]
            debug := some [] } :=
  ⟨rfl, rfl, rfl, rfl⟩

/-! ## Returning a result; the revision chosen for the file blockers -/

theorem lastRevisionTimestamp_ok_iff (review : Review) :
    (∃ last, lastRevisionTimestamp review = .ok last) ↔
      ∃ rev ∈ review.revisions, rev.obsolete = false := by
  constructor
  · rintro ⟨last, h⟩
    unfold lastRevisionTimestamp at h
    cases hl : (review.revisions.filter (fun rev => !rev.obsolete)).getLast? with
    | none => simp [hl] at h
    | some rev =>
      have hmem : rev ∈ review.revisions.filter (fun rev => !rev.obsolete) :=
        List.mem_of_getLast?_eq_some hl
      rw [List.mem_filter] at hmem
      exact ⟨rev, hmem.1, by simpa using hmem.2⟩
  · exact lastRevisionTimestamp_ok review

theorem reviewable_lgtm_ok_iff (review : Review) :
    (∃ r, reviewable_lgtm review = .ok r) ↔
      ∃ rev ∈ review.revisions, rev.obsolete = false := by
  rw [← lastRevisionTimestamp_ok_iff]
  constructor
  · rintro ⟨r, h⟩
    unfold reviewable_lgtm at h
    cases hl : lastRevisionTimestamp review with
    | error e => simp [hl] at h
    | ok last => exact ⟨last, rfl⟩
  · rintro ⟨last, hl⟩
    obtain ⟨r, hr, _⟩ := reviewable_lgtm_ok review last hl
    exact ⟨r, hr⟩

theorem condition_ok_iff (review : Review) (r1 : RuleResult)
    (h1 : all_reviewed_and_resolved review = .ok r1) :
    (∃ r, condition review = .ok r) ↔ ∃ r2, reviewable_lgtm review = .ok r2 := by
  obtain ⟨r3, h3, _⟩ := github_approved_ok review
  constructor
  · rintro ⟨r, h⟩
    cases h2 : reviewable_lgtm review with
    | ok r2 => exact ⟨r2, rfl⟩
    | error e =>
      simp [condition, any_satisfied, runConditions, h1, h2] at h
  · rintro ⟨r2, h2⟩
    have hrun : runConditions review
        [all_reviewed_and_resolved, reviewable_lgtm, github_approved] = .ok [r1, r2, r3] := by
      simp [runConditions, h1, h2, h3]
    cases hf : List.find? (fun res => res.completed) [r1, r2, r3] with
    | some s => exact ⟨s, by simp only [condition, any_satisfied, hrun, hf]⟩
    | none =>
      have hnone : ∀ res ∈ [r1, r2, r3], res.completed = false := by
        intro res hres
        have := List.find?_eq_none.mp hf res hres
        simpa using this
      obtain ⟨r, hr, _⟩ := any_satisfied_fallback_pending _ review _ hrun hnone
      exact ⟨r, hr⟩

/-- C17, as the code has it. On a snapshot whose files all have a revision,
`all_reviewed_and_resolved` and `github_approved` return a result, and
`reviewable_lgtm` and the condition as a whole return a result exactly when
the review has a non-obsolete revision. -/
theorem rules_return_on_well_formed (review : Review)
    (hfiles : ∀ file ∈ review.files, file.revisions ≠ []) :
    (∃ r, all_reviewed_and_resolved review = .ok r) ∧
    (∃ r, github_approved review = .ok r) ∧
    ((∃ r, reviewable_lgtm review = .ok r) ↔
      ∃ rev ∈ review.revisions, rev.obsolete = false) ∧
    ((∃ r, condition review = .ok r) ↔
      ∃ rev ∈ review.revisions, rev.obsolete = false) := by
  obtain ⟨r1, h1, _⟩ := all_reviewed_completed_iff review hfiles
  obtain ⟨r3, h3, _⟩ := github_approved_ok review
  refine ⟨⟨r1, h1⟩, ⟨r3, h3⟩, reviewable_lgtm_ok_iff review, ?_⟩
  rw [condition_ok_iff review r1 h1]
  exact reviewable_lgtm_ok_iff review

/-- Witness for C17: a snapshot with a file and a non-obsolete revision, on
which the three rules and the condition return. -/
theorem rules_return_on_well_formed_witness :
    (∀ file ∈ requestedBobReview.files, file.revisions ≠ []) ∧
    (∃ r, all_reviewed_and_resolved requestedBobReview = .ok r) ∧
    (∃ r, github_approved requestedBobReview = .ok r) ∧
    (∃ r, reviewable_lgtm requestedBobReview = .ok r) ∧
    (∃ r, condition requestedBobReview = .ok r) :=
  ⟨by decide,
   (rules_return_on_well_formed requestedBobReview (by decide)).1,
   (rules_return_on_well_formed requestedBobReview (by decide)).2.1,
   (rules_return_on_well_formed requestedBobReview (by decide)).2.2.1.mpr
     ⟨⟨false, 3⟩, by decide, rfl⟩,
   (rules_return_on_well_formed requestedBobReview (by decide)).2.2.2.mpr
     ⟨⟨false, 3⟩, by decide, rfl⟩⟩

/-- Counterexample to C17 as stated: with no review revision, or with
obsolete revisions only, `reviewable_lgtm` throws while reading
`snapshotTimestamp`, and so does the condition as a whole, although the
first rule is completed on both snapshots. -/
theorem rules_return_counterexample :
    (∀ file ∈ noRevisionsReview.files, file.revisions ≠ []) ∧
    noRevisionsReview.revisions = [] ∧
    (∃ r, all_reviewed_and_resolved noRevisionsReview = .ok r ∧ r.completed = true) ∧
    reviewable_lgtm noRevisionsReview =
      .error "TypeError: cannot read property snapshotTimestamp of undefined" ∧
    condition noRevisionsReview =
      .error "TypeError: cannot read property snapshotTimestamp of undefined" ∧
    (∀ rev ∈ onlyObsoleteRevisionsReview.revisions, rev.obsolete = true) ∧
    reviewable_lgtm onlyObsoleteRevisionsReview =
      .error "TypeError: cannot read property snapshotTimestamp of undefined" ∧
    condition onlyObsoleteRevisionsReview =
      .error "TypeError: cannot read property snapshotTimestamp of undefined" :=
  ⟨by decide, rfl, ⟨_, rfl, rfl⟩, rfl, rfl, by decide, rfl, rfl⟩

theorem findLast_append_of_forall_false {α : Type} (xs ys : List α) (p : α → Bool)
    (h : ∀ y ∈ ys, p y = false) : findLast (xs ++ ys) p = findLast xs p := by
  unfold findLast
  rw [List.reverse_append, List.find?_append]
  have hnone : List.find? p ys.reverse = none := by
    rw [List.find?_eq_none]
    intro y hy
    simp [h y (List.mem_reverse.mp hy)]
  rw [hnone]
  rfl

theorem findLast_split {α : Type} (xs : List α) (p : α → Bool) (x : α)
    (h : findLast xs p = some x) :
    ∃ pre post, xs = pre ++ x :: post ∧ p x = true ∧ ∀ y ∈ post, p y = false := by
  induction xs using List.reverseRecOn with
  | nil => simp [findLast] at h
  | append_singleton ys y ih =>
    by_cases hy : p y = true
    · have hx : findLast (ys ++ [y]) p = some y := by
        simp [findLast, List.find?, hy]
      rw [hx] at h
      cases h
      exact ⟨ys, [], rfl, hy, by simp⟩
    · have hy' : p y = false := by simpa using hy
      rw [findLast_append_of_forall_false ys [y] p (by simpa using hy')] at h
      obtain ⟨pre, post, hsplit, hpx, hpost⟩ := ih h
      refine ⟨pre, post ++ [y], by rw [hsplit]; simp, hpx, ?_⟩
      intro z hz
      rcases List.mem_append.mp hz with hz | hz
      · exact hpost z hz
      · rw [List.mem_singleton.mp hz]; exact hy'

theorem unreviewedFiles_eq_filter (files l : List FileEntry)
    (h : unreviewedFiles files = .ok l) :
    l = files.filter (fun file =>
      match effectiveLastRevision file with
      | some rev0 => rev0.reviewers.isEmpty
      | none => false) := by
  induction files generalizing l with
  | nil =>
    simp only [unreviewedFiles, Except.ok.injEq] at h
    subst h
    rfl
  | cons g files ih =>
    simp only [unreviewedFiles] at h
    cases hg : effectiveLastRevision g with
    | none => simp [hg] at h
    | some rev =>
      simp only [hg] at h
      cases hrest : unreviewedFiles files with
      | error e => simp [hrest] at h
      | ok rest =>
        simp only [hrest, Except.ok.injEq] at h
        rw [List.filter_cons, hg, ← ih rest hrest]
        exact h.symm

theorem findLast_append_of_some {α : Type} (xs ys : List α) (p : α → Bool) (y : α)
    (h : findLast ys p = some y) : findLast (xs ++ ys) p = some y := by
  unfold findLast at h ⊢
  rw [List.reverse_append, List.find?_append, h]
  rfl

theorem findLast_eq_some_iff {α : Type} (xs : List α) (p : α → Bool) (x : α) :
    findLast xs p = some x ↔
      ∃ pre post, xs = pre ++ x :: post ∧ p x = true ∧ ∀ y ∈ post, p y = false := by
  constructor
  · exact findLast_split xs p x
  · rintro ⟨pre, post, hsplit, hpx, hpost⟩
    have happ : pre ++ x :: post = (pre ++ [x]) ++ post := by simp
    rw [hsplit, happ, findLast_append_of_forall_false _ _ _ hpost]
    apply findLast_append_of_some
    simp [findLast, List.find?, hpx]

/-- C18, as the code has it. The list `lastReviewedRevisionsOfUnreviewedFiles`
holds, for every file whose effective last revision has no reviewer and in the
order of the files, the last revision of the whole revision list of the file
that has a reviewer (or `undefined`), and the file blockers are exactly the
reviewers of these revisions. That revision is the one after which no revision
has a reviewer. It lies before the effective last revision when the revisions
after the effective last revision have no reviewers, and it is one of those
later revisions otherwise. -/
theorem file_blockers_last_reviewed_revision (review : Review)
    (l : List (Option FileRevision))
    (hl : lastReviewedRevisionsOfUnreviewedFiles review = .ok l) :
    l = (review.files.filter (fun file =>
          match effectiveLastRevision file with
          | some rev0 => rev0.reviewers.isEmpty
          | none => false)).map
        (fun file => findLast file.revisions (fun rev => !rev.reviewers.isEmpty)) ∧
    (∀ file ∈ review.files, ∀ rev0, effectiveLastRevision file = some rev0 →
      rev0.reviewers = [] →
      findLast file.revisions (fun rev => !rev.reviewers.isEmpty) ∈ l ∧
      ∀ rev, findLast file.revisions (fun rev => !rev.reviewers.isEmpty) = some rev →
        ∀ u ∈ rev.reviewers, u ∈ fileBlockers l) ∧
    (∀ u, u ∈ fileBlockers l ↔
      ∃ file ∈ review.files,
        (∃ rev0, effectiveLastRevision file = some rev0 ∧ rev0.reviewers = []) ∧
        ∃ rev, findLast file.revisions (fun rev => !rev.reviewers.isEmpty) = some rev ∧
          u ∈ rev.reviewers) ∧
    (∀ (file : FileEntry) (rev : FileRevision),
      findLast file.revisions (fun rev => !rev.reviewers.isEmpty) = some rev ↔
        ∃ pre post, file.revisions = pre ++ rev :: post ∧ rev.reviewers ≠ [] ∧
          ∀ later ∈ post, later.reviewers = []) ∧
    (∀ (a b : List FileRevision) (rev0 : FileRevision), rev0.reviewers = [] →
      ((∀ later ∈ b, later.reviewers = []) →
        findLast (a ++ rev0 :: b) (fun rev => !rev.reviewers.isEmpty) =
          findLast a (fun rev => !rev.reviewers.isEmpty)) ∧
      ((∃ later ∈ b, later.reviewers ≠ []) →
        ∃ rev ∈ b, findLast (a ++ rev0 :: b) (fun rev => !rev.reviewers.isEmpty) = some rev)) := by
  obtain ⟨files, hfiles, hmap⟩ := lastReviewed_spec review l hl
  have hfilter := unreviewedFiles_eq_filter review.files files hfiles
  have hmemfiles := mem_unreviewedFiles review.files files hfiles
  have hblock : ∀ u, u ∈ fileBlockers l ↔ ∃ rev, some rev ∈ l ∧ u ∈ rev.reviewers := by
    intro u
    unfold fileBlockers
    rw [mem_flatten]
    constructor
    · rintro ⟨us, hus, huin⟩
      rw [List.mem_map] at hus
      obtain ⟨rev, hrev, rfl⟩ := hus
      rw [List.mem_filterMap] at hrev
      obtain ⟨o, ho, hid⟩ := hrev
      simp only [id] at hid
      subst hid
      exact ⟨rev, ho, huin⟩
    · rintro ⟨rev, hrev, huin⟩
      exact ⟨rev.reviewers, List.mem_map.mpr ⟨rev, List.mem_filterMap.mpr ⟨some rev, hrev, rfl⟩, rfl⟩,
        huin⟩
  have hin : ∀ file ∈ review.files, ∀ rev0, effectiveLastRevision file = some rev0 →
      rev0.reviewers = [] →
      findLast file.revisions (fun rev => !rev.reviewers.isEmpty) ∈ l := by
    intro file hfile rev0 heff hempty
    rw [hmap, List.mem_map]
    exact ⟨file, (hmemfiles file).mpr ⟨hfile, rev0, heff, hempty⟩, rfl⟩
  refine ⟨by rw [hmap, hfilter], ?_, ?_, ?_, ?_⟩
  · intro file hfile rev0 heff hempty
    refine ⟨hin file hfile rev0 heff hempty, ?_⟩
    intro rev hfind u hu
    rw [hblock]
    exact ⟨rev, hfind ▸ hin file hfile rev0 heff hempty, hu⟩
  · intro u
    rw [hblock]
    constructor
    · rintro ⟨rev, hrev, hu⟩
      rw [hmap, List.mem_map] at hrev
      obtain ⟨file, hfile, hfind⟩ := hrev
      have hmem := (hmemfiles file).mp hfile
      exact ⟨file, hmem.1, hmem.2, rev, hfind, hu⟩
    · rintro ⟨file, hfile, ⟨rev0, heff, hempty⟩, rev, hfind, hu⟩
      exact ⟨rev, hfind ▸ hin file hfile rev0 heff hempty, hu⟩
  · intro file rev
    rw [findLast_eq_some_iff]
    constructor
    · rintro ⟨pre, post, hsplit, hp, hpost⟩
      refine ⟨pre, post, hsplit, ?_, ?_⟩
      · intro hnil
        simp [hnil] at hp
      · intro later hlater
        simpa using hpost later hlater
    · rintro ⟨pre, post, hsplit, hne, hpost⟩
      refine ⟨pre, post, hsplit, ?_, ?_⟩
      · cases hr : rev.reviewers with
        | nil => exact absurd hr hne
        | cons x xs => rfl
      · intro later hlater
        simp [hpost later hlater]
  · intro a b rev0 hempty
    constructor
    · intro hlater
      apply findLast_append_of_forall_false a (rev0 :: b)
      intro y hy
      rcases List.mem_cons.mp hy with hy | hy
      · rw [hy]; simp [hempty]
      · simp [hlater y hy]
    · rintro ⟨later, hlater, hne⟩
      cases hfind : findLast b (fun rev => !rev.reviewers.isEmpty) with
      | none =>
        have := (findLast_eq_none_iff _ _).mp hfind later hlater
        cases hr : later.reviewers with
        | nil => exact absurd hr hne
        | cons x xs => simp [hr] at this
      | some rev =>
        have happ : a ++ rev0 :: b = (a ++ [rev0]) ++ b := by simp
        exact ⟨rev, (findLast_some _ _ _ hfind).1, by
          rw [happ]; exact findLast_append_of_some _ _ _ _ hfind⟩

/-- Witness for C18: the revision reviewed by alice, before the unreviewed
effective last revision, supplies the file blocker. -/
theorem file_blockers_last_reviewed_revision_witness :
    lastReviewedRevisionsOfUnreviewedFiles earlierReviewedReview =
      .ok [some ⟨true, [⟨"alice", true⟩]⟩] ∧
    fileBlockers [some ⟨true, [⟨"alice", true⟩]⟩] = [⟨"alice", true⟩] ∧
    (∀ u, u ∈ fileBlockers [some (⟨true, [⟨"alice", true⟩]⟩ : FileRevision)] ↔
      ∃ file ∈ earlierReviewedReview.files,
        (∃ rev0, effectiveLastRevision file = some rev0 ∧ rev0.reviewers = []) ∧
        ∃ rev, findLast file.revisions (fun rev => !rev.reviewers.isEmpty) = some rev ∧
          u ∈ rev.reviewers) :=
  ⟨rfl, rfl, (file_blockers_last_reviewed_revision earlierReviewedReview
    [some ⟨true, [⟨"alice", true⟩]⟩] rfl).2.2.1⟩

/-- Counterexample to C18 as stated: the effective last revision of the file
is its first revision, which has no reviewer; the revision chosen by
`_.findLast` is the obsolete revision after it, and its reviewer dave is
collected. -/
theorem file_blockers_later_revision_counterexample :
    laterObsoleteReview.files = [⟨[⟨false, []⟩, ⟨true, [⟨"dave", true⟩]⟩]⟩] ∧
    effectiveLastRevision ⟨[⟨false, []⟩, ⟨true, [⟨"dave", true⟩]⟩]⟩ = some ⟨false, []⟩ ∧
    lastReviewedRevisionsOfUnreviewedFiles laterObsoleteReview =
      .ok [some ⟨true, [⟨"dave", true⟩]⟩] ∧
    fileBlockers [some ⟨true, [⟨"dave", true⟩]⟩] = [⟨"dave", true⟩] ∧
    ∃ r, all_reviewed_and_resolved laterObsoleteReview = .ok r ∧
      r.pendingReviewers = [PendingReviewer.named "dave"] :=
  ⟨rfl, rfl, rfl, rfl, _, rfl, rfl⟩

end ReviewCondition
